import Mathlib

/-!
# HeCBench kernels: seam carving, HACCmk, the Bezier surface, d2q9-bgk and Sobol

Shallow embeddings of five programs of the repository.

* `SeamCarving`: `main` of `seam-carving-sycl/main.cpp`: argument and image
  checks, mode selection, the engine loop with its kernel calls and buffer
  swaps, and the hand-over of the result to the encoder.  C `int`/`long` values
  are integers; the one narrowing conversion of the program,
  `(int)seams_to_remove`, is an explicit reduction modulo `2^32`.  The `while`
  loop is run with a bound on the number of iterations it may take (`none` when
  the bound is exhausted).
* `Haccmk`: `haccmk_kernel`, `haccmk` and `haccmk_gold` of
  `haccmk-dpct/haccmk.cpp`, over uninterpreted single-precision operations;
  the `int` expression for the number of work-groups is reduced modulo `2^32`.
* `Bezier`: `BezierBlend`, `BezierCPU`, `BezierGPU` and `run` of
  `bezier-surface-cuda/dpct_output/main.cpp`, over uninterpreted `FLOAT`
  operations; `BezierBlend` is also read over the rationals.
* `D2q9`: the neighbour indices and the partial-sum indices of the kernel of
  `d2q9-bgk-sycl/main.cpp`, the host accumulation of the average velocities,
  and the records of `write_values`.
* `Sobol`: the execution configuration of `sobolGPU` of
  `sobol-dpct-h/sobol_gpu.dp.cpp`; `unsigned int` and `size_t` values are
  naturals reduced modulo `2^32` and `2^64`.

A kernel launch is the sequence of its work-items in the order of their global
ids; the work-items of these kernels write disjoint elements.
-/

namespace SeamCarving

/-- Largest value of a C `int`. -/
def INT_MAX : Int := 2147483647

/-- Conversion `(int)x` of a `long`: reduction modulo `2^32` into the signed range. -/
def long_to_int (x : Int) : Int := (x + 2147483648) % 4294967296 - 2147483648

inductive seam_carver_mode where
  | SEAM_CARVER_STANDARD_MODE
  | SEAM_CARVER_UPDATE_MODE
  | SEAM_CARVER_APPROX_MODE
deriving DecidableEq

/-- A pixel: three colour bytes and one padding byte. -/
structure uchar4 where
  x : Nat
  y : Nat
  z : Nat
  w : Nat
deriving DecidableEq

/-- What `stbi_load` hands back for a file it could read. -/
structure Image where
  imgv : List Nat
  w : Int
  h : Int
  ncomp : Int
deriving DecidableEq

/-- A `sycl::buffer<uchar4>`: its contents, and whether it was constructed over
the host array `h_pixels` (such a buffer copies its contents back to the host
array when it is destroyed).  `std::swap` exchanges whole buffers. -/
structure PixelBuffer where
  data : List uchar4
  host : Bool
deriving DecidableEq

/-- The buffers declared in the SYCL scope of `main` (lines 85-107). -/
structure Device where
  d_costs_left : List Int
  d_costs_up : List Int
  d_costs_right : List Int
  d_costs_swap_left : List Int
  d_costs_swap_up : List Int
  d_costs_swap_right : List Int
  d_index_map : List Int
  d_offset_map : List Int
  d_M : List Int
  d_indices : List Int
  d_indices_ref : List Int
  d_seam : List Int
  d_pixels : PixelBuffer
  d_pixels_swap : PixelBuffer
deriving DecidableEq

/-- The calls of `main` into `utils.h`, the kernel wrappers and the encoder,
with their scalar arguments in source order. -/
inductive Call where
  | build_pixels (w h : Int)
  | compute_costs (current_w w h : Int)
  | compute_M (current_w w h : Int)
  | find_min_index (current_w : Int)
  | find_seam (current_w w h : Int)
  | approx_setup (current_w w h : Int)
  | approx_M (current_w w h : Int)
  | approx_seam (w h : Int)
  | remove_seam (current_w w h : Int)
  | update_costs (current_w w h : Int)
  | flatten_pixels (w h new_w : Int)
  | stbi_write_bmp (x y comp : Int)
deriving DecidableEq

/-- Modelled from the spec: the kernel wrappers of `kernels_wrapper.h` are not
among the sources, so each one is a parameter.  A wrapper receives the scalar
arguments and the contents of the buffers of its call site and returns the new
contents of the buffers it produces (cost arrays for `compute_costs` and
`update_costs`, `M` for `compute_M`, the index buffer for `find_min_index`,
the seam for `find_seam` and `approx_seam`, the maps and `M` for the
approximate steps, the scratch grid for `remove_seam`); the grid it reads is
left as it is. -/
structure Kernels where
  compute_costs : Int → Int → Int → List uchar4 → List Int → List Int → List Int →
    List Int × List Int × List Int
  compute_M : Int → Int → Int → List Int → List Int → List Int → List Int → List Int
  find_min_index : Int → List Int → List Int → List Int → List Int
  find_seam : Int → Int → Int → List Int → List Int → List Int → List Int
  approx_setup : Int → Int → Int → List uchar4 → List Int → List Int → List Int →
    List Int × List Int × List Int
  approx_M : Int → Int → Int → List Int → List Int → List Int × List Int
  approx_seam : Int → Int → List Int → List Int → List Int → List Int
  remove_seam : Int → Int → Int → List Int → List uchar4 → List uchar4 → List Int →
    List uchar4
  update_costs : Int → Int → Int → List Int → List uchar4 →
    List Int → List Int → List Int → List Int → List Int → List Int → List Int →
    List Int × List Int × List Int

/-- Everything `main` takes from outside its own text: the C library, the
codec, the helpers of `utils.h`, the kernel wrappers and the contents of
freshly allocated buffers. -/
structure World where
  strtol : String → Option Int
  stbi_load : String → Option Image
  build_pixels : List Nat → Int → Int → List uchar4
  flatten_pixels : List uchar4 → Int → Int → Int → List Nat
  kernels : Kernels
  uninit : Device

/-- The variables of `main` that are live in the engine loop. -/
structure State where
  w : Int
  h : Int
  current_w : Int
  num_iterations : Int
  reduce_index : Int
  reduce_range : Int
  dev : Device
  trace : List Call
deriving DecidableEq

/-- What a run of `main` leaves behind: its return value, the calls it made,
the state at the exit of the loop (when the loop was reached) and the
arguments `x`, `y`, `comp`, `data` of `stbi_write_bmp` (when it was called). -/
structure Outcome where
  ret : Int
  trace : List Call
  final : Option State
  written : Option (Int × Int × Int × List Nat)
deriving DecidableEq

/-- The sub-buffer `sycl::buffer<int,1> (d_M, index, subRange)`. -/
def sub_buffer (buf : List Int) (index range : Int) : List Int :=
  (buf.drop index.toNat).take range.toNat

/-- Lines 51-65: the optional fourth argument selects the mode. -/
def select_mode (argv : List String) : seam_carver_mode :=
  if argv.length ≥ 4 then
    if argv.getD 3 "" = "-u" then seam_carver_mode.SEAM_CARVER_UPDATE_MODE
    else if argv.getD 3 "" = "-a" then seam_carver_mode.SEAM_CARVER_APPROX_MODE
    else seam_carver_mode.SEAM_CARVER_STANDARD_MODE
  else seam_carver_mode.SEAM_CARVER_STANDARD_MODE

/-- Call `compute_costs(q, current_w, w, h, d_pixels, d_costs_left, d_costs_up, d_costs_right)`. -/
def call_compute_costs (K : Kernels) (s : State) : State :=
  let r := K.compute_costs s.current_w s.w s.h s.dev.d_pixels.data
    s.dev.d_costs_left s.dev.d_costs_up s.dev.d_costs_right
  { s with
    dev := { s.dev with d_costs_left := r.1, d_costs_up := r.2.1, d_costs_right := r.2.2 },
    trace := s.trace ++ [Call.compute_costs s.current_w s.w s.h] }

/-- Call `compute_M(q, current_w, w, h, d_M, d_costs_left, d_costs_up, d_costs_right)`. -/
def call_compute_M (K : Kernels) (s : State) : State :=
  { s with
    dev := { s.dev with d_M := (K.compute_M s.current_w s.w s.h s.dev.d_M
      s.dev.d_costs_left s.dev.d_costs_up s.dev.d_costs_right) },
    trace := s.trace ++ [Call.compute_M s.current_w s.w s.h] }

/-- Call `find_min_index(q, current_w, d_indices_ref, d_indices, reduce_row)`. -/
def call_find_min_index (K : Kernels) (s : State) : State :=
  { s with
    dev := { s.dev with d_indices := (K.find_min_index s.current_w s.dev.d_indices_ref
      s.dev.d_indices (sub_buffer s.dev.d_M s.reduce_index s.reduce_range)) },
    trace := s.trace ++ [Call.find_min_index s.current_w] }

/-- Call `find_seam(q, current_w, w, h, d_M, d_indices, d_seam)`. -/
def call_find_seam (K : Kernels) (s : State) : State :=
  { s with
    dev := { s.dev with d_seam := (K.find_seam s.current_w s.w s.h s.dev.d_M
      s.dev.d_indices s.dev.d_seam) },
    trace := s.trace ++ [Call.find_seam s.current_w s.w s.h] }

/-- Call `approx_setup(q, current_w, w, h, d_pixels, d_index_map, d_offset_map, d_M)`. -/
def call_approx_setup (K : Kernels) (s : State) : State :=
  let r := K.approx_setup s.current_w s.w s.h s.dev.d_pixels.data
    s.dev.d_index_map s.dev.d_offset_map s.dev.d_M
  { s with
    dev := { s.dev with d_index_map := r.1, d_offset_map := r.2.1, d_M := r.2.2 },
    trace := s.trace ++ [Call.approx_setup s.current_w s.w s.h] }

/-- Call `approx_M(q, current_w, w, h, d_offset_map, d_M)`. -/
def call_approx_M (K : Kernels) (s : State) : State :=
  let r := K.approx_M s.current_w s.w s.h s.dev.d_offset_map s.dev.d_M
  { s with
    dev := { s.dev with d_offset_map := r.1, d_M := r.2 },
    trace := s.trace ++ [Call.approx_M s.current_w s.w s.h] }

/-- Call `approx_seam(q, w, h, d_index_map, d_indices, d_seam)`. -/
def call_approx_seam (K : Kernels) (s : State) : State :=
  { s with
    dev := { s.dev with d_seam := (K.approx_seam s.w s.h s.dev.d_index_map
      s.dev.d_indices s.dev.d_seam) },
    trace := s.trace ++ [Call.approx_seam s.w s.h] }

/-- Call `remove_seam(q, current_w, w, h, d_M, d_pixels, d_pixels_swap, d_seam)`. -/
def call_remove_seam (K : Kernels) (s : State) : State :=
  { s with
    dev := { s.dev with d_pixels_swap :=
      { s.dev.d_pixels_swap with data := (K.remove_seam s.current_w s.w s.h s.dev.d_M
          s.dev.d_pixels.data s.dev.d_pixels_swap.data s.dev.d_seam) } },
    trace := s.trace ++ [Call.remove_seam s.current_w s.w s.h] }

/-- Line 134: `std::swap(d_pixels, d_pixels_swap)`. -/
def swap_pixels (s : State) : State :=
  { s with dev := { s.dev with d_pixels := s.dev.d_pixels_swap, d_pixels_swap := s.dev.d_pixels } }

/-- Call `update_costs(...)` of lines 137-139. -/
def call_update_costs (K : Kernels) (s : State) : State :=
  let r := K.update_costs s.current_w s.w s.h s.dev.d_M s.dev.d_pixels.data
    s.dev.d_costs_left s.dev.d_costs_up s.dev.d_costs_right
    s.dev.d_costs_swap_left s.dev.d_costs_swap_up s.dev.d_costs_swap_right s.dev.d_seam
  { s with
    dev := { s.dev with d_costs_swap_left := r.1, d_costs_swap_up := r.2.1,
                        d_costs_swap_right := r.2.2 },
    trace := s.trace ++ [Call.update_costs s.current_w s.w s.h] }

/-- Lines 140-142: the three cost buffers change places with their scratch buffers. -/
def swap_costs (s : State) : State :=
  { s with dev := { s.dev with
      d_costs_left := s.dev.d_costs_swap_left, d_costs_swap_left := s.dev.d_costs_left,
      d_costs_up := s.dev.d_costs_swap_up, d_costs_swap_up := s.dev.d_costs_up,
      d_costs_right := s.dev.d_costs_swap_right, d_costs_swap_right := s.dev.d_costs_right } }

/-- Lines 118-131: the cost, table, reduction and trace steps of one iteration. -/
def seam_steps (K : Kernels) (mode : seam_carver_mode) (s : State) : State :=
  let s1 := if mode = seam_carver_mode.SEAM_CARVER_STANDARD_MODE then call_compute_costs K s else s
  if mode ≠ seam_carver_mode.SEAM_CARVER_APPROX_MODE then
    call_find_seam K (call_find_min_index K (call_compute_M K s1))
  else
    call_approx_seam K (call_find_min_index K (call_approx_M K (call_approx_setup K s1)))

/-- Lines 133-143: removal, swap and (update mode) the cost update with its swaps. -/
def removal_steps (K : Kernels) (mode : seam_carver_mode) (s : State) : State :=
  let s3 := swap_pixels (call_remove_seam K s)
  if mode = seam_carver_mode.SEAM_CARVER_UPDATE_MODE then swap_costs (call_update_costs K s3)
  else s3

/-- Lines 117-147: the body of the engine loop. -/
def loop_body (K : Kernels) (mode : seam_carver_mode) (s : State) : State :=
  let s4 := removal_steps K mode (seam_steps K mode s)
  { s4 with current_w := s4.current_w - 1, num_iterations := s4.num_iterations + 1 }

/-- Line 116: the loop condition `num_iterations < (int)seams_to_remove`. -/
def loop_cond (seams_to_remove : Int) (s : State) : Bool :=
  decide (s.num_iterations < long_to_int seams_to_remove)

/-- Lines 116-147: the `while` loop, allowed at most `fuel` iterations. -/
def engine_loop (K : Kernels) (mode : seam_carver_mode) (seams_to_remove : Int) :
    Nat → State → Option State
  | fuel, s =>
    if loop_cond seams_to_remove s then
      match fuel with
      | 0 => none
      | fuel + 1 => engine_loop K mode seams_to_remove fuel (loop_body K mode s)
    else some s

/-- Lines 69-112: the state in which the loop is entered. -/
def initial_state (W : World) (mode : seam_carver_mode) (img : Image) : State :=
  let w := img.w
  let h := img.h
  let current_w := w
  let h_pixels := W.build_pixels img.imgv w h
  let img_size := w * h
  let indices := (List.range w.toNat).map Int.ofNat
  let index := if mode = seam_carver_mode.SEAM_CARVER_APPROX_MODE then 0 else w * (h - 1)
  let subRange := if mode = seam_carver_mode.SEAM_CARVER_APPROX_MODE then img_size
    else img_size - w * (h - 1)
  let s0 : State :=
    { w := w, h := h, current_w := current_w, num_iterations := 0,
      reduce_index := index, reduce_range := subRange,
      dev := { W.uninit with
        d_indices_ref := indices,
        d_pixels := { data := h_pixels, host := true },
        d_pixels_swap := { data := W.uninit.d_pixels_swap.data, host := false } },
      trace := [Call.build_pixels w h] }
  if mode = seam_carver_mode.SEAM_CARVER_UPDATE_MODE then call_compute_costs W.kernels s0 else s0

/-- End of the SYCL scope (line 154): the buffer constructed over `h_pixels`
copies its contents back into the host array. -/
def host_pixels (d : Device) : List uchar4 :=
  if d.d_pixels.host then d.d_pixels.data else d.d_pixels_swap.data

/-- Lines 156-166: flatten the host array, hand it to the encoder, return 0. -/
def finish (W : World) (s : State) : Outcome :=
  let output := W.flatten_pixels (host_pixels s.dev) s.w s.h s.current_w
  { ret := 0,
    trace := s.trace ++ [Call.flatten_pixels s.w s.h s.current_w,
                         Call.stbi_write_bmp s.current_w s.h 3],
    final := some s,
    written := some (s.current_w, s.h, 3, output) }

/-- Lines 67-166: the engine run on an accepted image and seam count. -/
def resize (W : World) (mode : seam_carver_mode) (fuel : Nat) (seams_to_remove : Int)
    (img : Image) : Option Outcome :=
  (engine_loop W.kernels mode seams_to_remove fuel (initial_state W mode img)).map (finish W)

/-- An error exit of `main`: `return 1` before any work. -/
def reject : Outcome := { ret := 1, trace := [], final := none, written := none }

/-- Lines 41-166: `main` from the channel check on. -/
def checked_run (W : World) (fuel : Nat) (argv : List String) (seams_to_remove : Int)
    (img : Image) : Option Outcome :=
  if img.ncomp ≠ 3 then some reject
  else if seams_to_remove < 0 ∨ seams_to_remove ≥ img.w then some reject
  else resize W (select_mode argv) fuel seams_to_remove img

/-- The function `main` of `seam-carving-sycl/main.cpp`; `argc` is the length
of `argv`.  The result is `none` when the loop needs more than `fuel`
iterations. -/
def main (W : World) (fuel : Nat) (argv : List String) : Option Outcome :=
  if argv.length < 3 then some reject
  else
    match W.strtol (argv.getD 2 "") with
    | none => some reject
    | some seams_to_remove =>
      match W.stbi_load (argv.getD 1 "") with
      | none => some reject
      | some img => checked_run W fuel argv seams_to_remove img

/-- The calls one iteration of the loop is expected to make at width
`current_w`, per mode, in order. -/
def cycle_calls (mode : seam_carver_mode) (w h current_w : Int) : List Call :=
  match mode with
  | seam_carver_mode.SEAM_CARVER_STANDARD_MODE =>
    [Call.compute_costs current_w w h, Call.compute_M current_w w h,
     Call.find_min_index current_w, Call.find_seam current_w w h,
     Call.remove_seam current_w w h]
  | seam_carver_mode.SEAM_CARVER_UPDATE_MODE =>
    [Call.compute_M current_w w h, Call.find_min_index current_w,
     Call.find_seam current_w w h, Call.remove_seam current_w w h,
     Call.update_costs current_w w h]
  | seam_carver_mode.SEAM_CARVER_APPROX_MODE =>
    [Call.approx_setup current_w w h, Call.approx_M current_w w h,
     Call.find_min_index current_w, Call.approx_seam w h,
     Call.remove_seam current_w w h]

/-- The calls of `k` consecutive iterations, the first one at width `current_w`. -/
def repeat_cycle (mode : seam_carver_mode) (w h : Int) : Nat → Int → List Call
  | 0, _ => []
  | k + 1, current_w =>
    cycle_calls mode w h current_w ++ repeat_cycle mode w h k (current_w - 1)

/-- The states at the head of the loop: the entry state, and the state after
the body whenever the condition held. -/
inductive LoopHead (K : Kernels) (mode : seam_carver_mode) (seams_to_remove : Int)
    (s0 : State) : State → Prop where
  | entry : LoopHead K mode seams_to_remove s0 s0
  | next (s : State) : LoopHead K mode seams_to_remove s0 s →
      loop_cond seams_to_remove s = true →
      LoopHead K mode seams_to_remove s0 (loop_body K mode s)

/-- Kernel wrappers that leave every buffer as it is, for concrete runs. -/
def idle_kernels : Kernels :=
  { compute_costs := fun _ _ _ _ l u r => (l, u, r),
    compute_M := fun _ _ _ m _ _ _ => m,
    find_min_index := fun _ _ i _ => i,
    find_seam := fun _ _ _ _ _ s => s,
    approx_setup := fun _ _ _ _ i o m => (i, o, m),
    approx_M := fun _ _ _ o m => (o, m),
    approx_seam := fun _ _ _ _ s => s,
    remove_seam := fun _ _ _ _ _ p _ => p,
    update_costs := fun _ _ _ _ _ _ _ _ l u r _ => (l, u, r) }

/-- Buffers with nothing in them. -/
def empty_device : Device :=
  { d_costs_left := [], d_costs_up := [], d_costs_right := [],
    d_costs_swap_left := [], d_costs_swap_up := [], d_costs_swap_right := [],
    d_index_map := [], d_offset_map := [], d_M := [], d_indices := [],
    d_indices_ref := [], d_seam := [],
    d_pixels := { data := [], host := false },
    d_pixels_swap := { data := [], host := false } }

/-- A 2x1 image with the given number of channels. -/
def tiny_image (ncomp : Int) : Image :=
  { imgv := [1, 2, 3, 4, 5, 6], w := 2, h := 1, ncomp := ncomp }

/-- A world for concrete runs: the second argument is converted to `n`, the
file holds `img`, the helpers and kernels do nothing. -/
def demo_world (n : Int) (img : Image) : World :=
  { strtol := fun _ => some n,
    stbi_load := fun _ => some img,
    build_pixels := fun _ _ _ => [],
    flatten_pixels := fun _ _ _ _ => [],
    kernels := idle_kernels,
    uninit := empty_device }

/-- The `x`, `y`, `comp` arguments of the `stbi_write_bmp` call of a run. -/
def written_dims (o : Outcome) : Option (Int × Int × Int) :=
  o.written.map (fun t => (t.1, t.2.1, t.2.2.1))

/-- The loop head reached after one iteration on the 2x1 image in standard mode. -/
def demo_head : State :=
  loop_body idle_kernels seam_carver_mode.SEAM_CARVER_STANDARD_MODE
    (initial_state (demo_world 1 (tiny_image 3)) seam_carver_mode.SEAM_CARVER_STANDARD_MODE
      (tiny_image 3))

/-- A 3x1 image with 3 channels. -/
def wide_image : Image :=
  { imgv := [1, 2, 3, 4, 5, 6, 7, 8, 9], w := 3, h := 1, ncomp := 3 }

/-- Modelled from the spec: `build_pixels` of `utils.h`, which is not among
the sources.  It turns the flat RGB buffer of the codec into the row-major
grid of `w * h` pixels, a pixel being "an RGB triple (plus unused padding for
alignment)". -/
def build_pixels (imgv : List Nat) (w h : Int) : List uchar4 :=
  (List.range (w * h).toNat).map (fun i =>
    { x := imgv.getD (3 * i) 0, y := imgv.getD (3 * i + 1) 0, z := imgv.getD (3 * i + 2) 0,
      w := 0 })

/-- The three colour bytes of a pixel, in buffer order. -/
def channels (p : uchar4) : List Nat := [p.x, p.y, p.z]

/-- Modelled from the spec: `flatten_pixels` of `utils.h`, which is not among
the sources.  It produces "a pixel buffer of width `w0 − n`, height unchanged,
in the same channel layout": row after row, the first `new_w` pixels of each
row of the grid, whose rows lie `w` pixels apart. -/
def flatten_pixels (pixels : List uchar4) (w h new_w : Int) : List Nat :=
  (List.range h.toNat).flatMap (fun r =>
    (List.range new_w.toNat).flatMap (fun c =>
      channels (pixels.getD (r * w.toNat + c) ⟨0, 0, 0, 0⟩)))

/-- A world whose `utils.h` helpers are the ones modelled from the spec. -/
def codec_world (n : Int) (img : Image) : World :=
  { demo_world n img with build_pixels := build_pixels, flatten_pixels := flatten_pixels }

/-- The entry of a cost row at column `i`. -/
def row_value (row : List Int) (i : Int) : Int := row.getD i.toNat 0

/-- Modelled from the spec: the comparison at one node of the reduction tree
of `find_min_index` (its kernel is not among the sources).  Of two columns it
keeps the one with the smaller value, "breaking ties by lowest index". -/
def min_pair (row : List Int) (i j : Int) : Int :=
  if row_value row j < row_value row i then j
  else if row_value row i < row_value row j then i
  else if j < i then j else i

/-- Modelled from the spec: one level of the "tree/pairwise parallel
reduction": neighbouring candidates are compared in pairs, an odd last one is
carried over. -/
def reduce_level (row : List Int) : List Int → List Int
  | i :: j :: rest => min_pair row i j :: reduce_level row rest
  | rest => rest

/-- Modelled from the spec: the levels of the reduction, repeated until one
candidate is left (at most `fuel` levels). -/
def reduce_tree (row : List Int) : Nat → List Int → List Int
  | 0, cands => cands
  | fuel + 1, cands =>
    if cands.length ≤ 1 then cands else reduce_tree row fuel (reduce_level row cands)

/-- Modelled from the spec: `find_min_index` of `kernels_wrapper.h`, which is
not among the sources.  Called as `find_min_index(q, current_w, d_indices_ref,
d_indices, reduce_row)`, it reduces the first `current_w` reference indices
over the row by the pairwise tree and stores the surviving column at the
front of `d_indices`. -/
def find_min_index (current_w : Int) (d_indices_ref d_indices reduce_row : List Int) :
    List Int :=
  match reduce_tree reduce_row current_w.toNat (d_indices_ref.take current_w.toNat) with
  | [m] => d_indices.set 0 m
  | _ => d_indices

/-- One step of the sequential scan: the column `i` replaces the best column
so far only when its value is strictly smaller. -/
def scan_step (row : List Int) (best : Int) (i : Nat) : Int :=
  if row_value row (i : Int) < row_value row best then (i : Int) else best

/-- The sequential left-to-right argmin over the columns `0 .. n-1` of the
spec's testable property; ties keep the lowest index. -/
def linear_argmin (row : List Int) (n : Nat) : Int :=
  (List.range n).foldl (scan_step row) 0

/-- The width argument of a `remove_seam` call, and nothing for other calls. -/
def remove_seam_width : Call → Option Int
  | Call.remove_seam current_w _ _ => some current_w
  | _ => none

/-- Modelled from the spec: `remove_seam` of `kernels_wrapper.h`, which is not
among the sources.  Called as `remove_seam(q, current_w, w, h, d_M, d_pixels,
d_pixels_swap, d_seam)`, it fills, "for every row", the first `current_w - 1`
columns of the scratch grid (rows lie `w` pixels apart): a pixel left of the
seam's column is copied from the same column, the others from the column to
their right ("shift all pixels to its right one position left"); the rest of
the scratch grid is left as it was. -/
def remove_seam (current_w w h : Int) (_d_M : List Int) (d_pixels d_pixels_swap : List uchar4)
    (d_seam : List Int) : List uchar4 :=
  (List.range d_pixels_swap.length).map (fun ix =>
    if ix / w.toNat < h.toNat ∧ ((ix % w.toNat : Nat) : Int) < current_w - 1 then
      if ((ix % w.toNat : Nat) : Int) < d_seam.getD (ix / w.toNat) 0 then
        d_pixels.getD ix ⟨0, 0, 0, 0⟩
      else d_pixels.getD (ix + 1) ⟨0, 0, 0, 0⟩
    else d_pixels_swap.getD ix ⟨0, 0, 0, 0⟩)

/-- The first `width` pixels of row `r` of a grid whose rows lie `w` apart. -/
def grid_row (grid : List uchar4) (w : Int) (r : Nat) (width : Int) : List uchar4 :=
  (grid.drop (r * w.toNat)).take width.toNat

/-- A pixel with the given red byte, for concrete grids. -/
def px (v : Nat) : uchar4 := { x := v, y := 0, z := 0, w := 0 }

/-- Kernels for concrete runs on one-row images: `find_seam` reports column 0
for every row, `remove_seam` is the one modelled from the spec, the others
leave their buffers alone. -/
def first_column_kernels : Kernels :=
  { idle_kernels with
    find_seam := fun _ _ h _ _ _ => List.replicate h.toNat 0,
    remove_seam := remove_seam }

/-- A world in which the file holds `img` and the second argument converts to
`n`; the `utils.h` helpers and `remove_seam` are the modelled ones and the
scratch grid starts as three blank pixels. -/
def carving_world (n : Int) (img : Image) : World :=
  { strtol := fun _ => some n,
    stbi_load := fun _ => some img,
    build_pixels := build_pixels,
    flatten_pixels := flatten_pixels,
    kernels := first_column_kernels,
    uninit := { empty_device with
      d_pixels_swap := { data := [px 0, px 0, px 0], host := false } } }

/-- The entry at `(row, col)` of a buffer whose rows lie `w` apart. -/
def cell (buf : List Int) (w : Int) (row col : Nat) : Int :=
  buf.getD (row * w.toNat + col) 0

/-- Modelled from the spec: one row of the cumulative table from the row
before it.  An entry is "cost(pixel, chosen direction) + M[predecessor]", the
chosen direction being "the argmin over the three candidate predecessors",
ties in the order up, left, right; a neighbour outside `[0, current_w)` is
not a candidate. -/
def M_next (current_w w : Int) (d_costs_left d_costs_up d_costs_right : List Int)
    (row : Nat) (prev : List Int) : List Int :=
  (List.range current_w.toNat).map (fun col =>
    let via_up := prev.getD col 0 + cell d_costs_up w row col
    let via_left := prev.getD (col - 1) 0 + cell d_costs_left w row col
    let via_right := prev.getD (col + 1) 0 + cell d_costs_right w row col
    let best := if 0 < col ∧ via_left < via_up then via_left else via_up
    if col + 1 < current_w.toNat ∧ via_right < best then via_right else best)

/-- Modelled from the spec: the rows of the cumulative table, "built one row
at a time in the direction away from the boundary", which is row 0 (the row
`main` reduces over is row `h - 1`).  The spec leaves the entries of the
boundary row open; they are the parameter `boundary`. -/
def M_rows (boundary : Nat → Int) (current_w w : Int)
    (d_costs_left d_costs_up d_costs_right : List Int) : Nat → List Int
  | 0 => (List.range current_w.toNat).map boundary
  | row + 1 =>
    M_next current_w w d_costs_left d_costs_up d_costs_right (row + 1)
      (M_rows boundary current_w w d_costs_left d_costs_up d_costs_right row)

/-- Modelled from the spec: `compute_M` of `kernels_wrapper.h`, which is not
among the sources.  Called as `compute_M(q, current_w, w, h, d_M,
d_costs_left, d_costs_up, d_costs_right)`, it fills the first `current_w`
columns of the `h` rows of `d_M` (rows `w` apart) with the cumulative table
and leaves the other entries as they were.  Sums are taken in the integers. -/
def compute_M (boundary : Nat → Int) (current_w w h : Int) (d_M : List Int)
    (d_costs_left d_costs_up d_costs_right : List Int) : List Int :=
  (List.range d_M.length).map (fun ix =>
    if ix / w.toNat < h.toNat ∧ ix % w.toNat < current_w.toNat then
      (M_rows boundary current_w w d_costs_left d_costs_up d_costs_right
        (ix / w.toNat)).getD (ix % w.toNat) 0
    else d_M.getD ix 0)

/-- The cost of entering `(row, col)` from column `pred` of the row before:
the left cost from `col - 1`, the up cost from `col`, the right cost from
`col + 1`. -/
def enter_cost (w : Int) (d_costs_left d_costs_up d_costs_right : List Int)
    (row col pred : Nat) : Int :=
  if pred + 1 = col then cell d_costs_left w row col
  else if pred = col then cell d_costs_up w row col
  else cell d_costs_right w row col

/-- A valid seam-prefix, listed from its last column back to its column in
the boundary row: every column lies in `[0, current_w)` and columns of
adjacent rows differ by at most 1. -/
def valid_path (current_w : Nat) : List Nat → Prop
  | [] => False
  | [col] => col < current_w
  | col :: pred :: rest =>
    col < current_w ∧ (pred + 1 = col ∨ pred = col ∨ pred = col + 1) ∧
      valid_path current_w (pred :: rest)

/-- The accumulated directional cost along a seam-prefix (listed from its
last column back): the boundary entry of its first column and the cost of
entering every later cell from the one before. -/
def path_cost (boundary : Nat → Int) (w : Int)
    (d_costs_left d_costs_up d_costs_right : List Int) : List Nat → Int
  | [] => 0
  | [col] => boundary col
  | col :: pred :: rest =>
    path_cost boundary w d_costs_left d_costs_up d_costs_right (pred :: rest)
      + enter_cost w d_costs_left d_costs_up d_costs_right (rest.length + 1) col pred

end SeamCarving

namespace Haccmk

/-- The single-precision operations and constants of `haccmk.cpp`, left
uninterpreted: `lit m e` is the constant written `m * 10^(-e)` in the source. -/
structure Arith (F : Type) where
  add : F → F → F
  sub : F → F → F
  mul : F → F → F
  div : F → F → F
  sqrt : F → F
  lt : F → F → Bool
  lit : Int → Nat → F

/-- Lines 23-28 and 121-122: the polynomial
`ma0 + r2*(ma1 + r2*(ma2 + r2*(ma3 + r2*(ma4 + r2*ma5))))`.  The kernel writes
the six constants with the `f` suffix, the reference without; both denote
the same `float`. -/
def poly {F : Type} (A : Arith F) (r2 : F) : F :=
  A.add (A.lit 269327 6) (A.mul r2
    (A.add (A.lit (-750978) 7) (A.mul r2
      (A.add (A.lit 114808 7) (A.mul r2
        (A.add (A.lit (-109313) 8) (A.mul r2
          (A.add (A.lit 605491 10) (A.mul r2 (A.lit (-147177) 11))))))))))

/-- Lines 41-56: one pass of the inner loop of `haccmk_kernel`. -/
def kernel_body {F : Type} (A : Arith F) (xx yy zz mass : List F) (fsrmax mp_rsm : F)
    (xxi yyi zzi : F) (acc : F × F × F) (j : Nat) : F × F × F :=
  let dxc := A.sub (xx.getD j (A.lit 0 0)) xxi
  let dyc := A.sub (yy.getD j (A.lit 0 0)) yyi
  let dzc := A.sub (zz.getD j (A.lit 0 0)) zzi
  let r2 := A.add (A.add (A.mul dxc dxc) (A.mul dyc dyc)) (A.mul dzc dzc)
  let m := if A.lt r2 fsrmax then mass.getD j (A.lit 0 0) else A.lit 0 0
  let f := A.add r2 mp_rsm
  let f := A.mul m (A.sub (A.div (A.lit 1 0) (A.mul f (A.sqrt f))) (poly A r2))
  (A.add acc.1 (A.mul f dxc), A.add acc.2.1 (A.mul f dyc), A.add acc.2.2 (A.mul f dzc))

/-- Lines 130-145: one pass of the loop of `haccmk_gold`. -/
def gold_body {F : Type} (A : Arith F) (xx1 yy1 zz1 mass1 : List F) (fsrrmax2 mp_rsm2 : F)
    (xxi yyi zzi : F) (acc : F × F × F) (j : Nat) : F × F × F :=
  let dxc := A.sub (xx1.getD j (A.lit 0 0)) xxi
  let dyc := A.sub (yy1.getD j (A.lit 0 0)) yyi
  let dzc := A.sub (zz1.getD j (A.lit 0 0)) zzi
  let r2 := A.add (A.add (A.mul dxc dxc) (A.mul dyc dyc)) (A.mul dzc dzc)
  let m := if A.lt r2 fsrrmax2 then mass1.getD j (A.lit 0 0) else A.lit 0 0
  let f := A.add r2 mp_rsm2
  let f := A.mul m (A.sub (A.div (A.lit 1 0) (A.mul f (A.sqrt f))) (poly A r2))
  (A.add acc.1 (A.mul f dxc), A.add acc.2.1 (A.mul f dyc), A.add acc.2.2 (A.mul f dzc))

/-- Lines 116-151: `haccmk_gold`; the result is `(*dxi, *dyi, *dzi)`. -/
def haccmk_gold {F : Type} (A : Arith F) (n2 : Int) (xxi yyi zzi fsrrmax2 mp_rsm2 : F)
    (xx1 yy1 zz1 mass1 : List F) : F × F × F :=
  (List.range n2.toNat).foldl (gold_body A xx1 yy1 zz1 mass1 fsrrmax2 mp_rsm2 xxi yyi zzi)
    (A.lit 0 0, A.lit 0 0, A.lit 0 0)

/-- Integer arithmetic standing in for the float operations, for concrete runs. -/
def int_arith : Arith Int :=
  { add := fun a b => a + b, sub := fun a b => a - b, mul := fun a b => a * b,
    div := fun a b => a / b, sqrt := fun a => a, lt := fun a b => decide (a < b),
    lit := fun m _ => m }

/-- The sums `(xi, yi, zi)` that the kernel accumulates for particle `i`. -/
def kernel_sums {F : Type} (A : Arith F) (n2 : Int) (xx yy zz mass : List F)
    (fsrmax mp_rsm : F) (i : Nat) : F × F × F :=
  (List.range n2.toNat).foldl
    (kernel_body A xx yy zz mass fsrmax mp_rsm (xx.getD i (A.lit 0 0))
      (yy.getD i (A.lit 0 0)) (zz.getD i (A.lit 0 0)))
    (A.lit 0 0, A.lit 0 0, A.lit 0 0)

end Haccmk

namespace Bezier

/-- The `FLOAT` operations of the Bezier program, left uninterpreted:
`ofInt` is the conversion of an `int` to `FLOAT`. -/
structure Arith (F : Type) where
  add : F → F → F
  sub : F → F → F
  mul : F → F → F
  div : F → F → F
  pow : F → F → F
  ofInt : Int → F

/-- The point type `XYZ`. -/
structure XYZ (F : Type) where
  x : F
  y : F
  z : F

/-- Lines 180-191: the `while(nn >= 1)` loop of `BezierBlend`.  The first
argument is the number of passes left, one less than the value of `nn` in the
pass. -/
def blend_loop {F : Type} (A : Arith F) : Nat → Int → Int → F → F
  | 0, _, _, blend => blend
  | nn + 1, kn, nkn, blend =>
    let blend := A.mul blend (A.ofInt ((nn : Int) + 1))
    let blend1 := if kn > 1 then A.div blend (A.ofInt kn) else blend
    let kn1 := if kn > 1 then kn - 1 else kn
    let blend2 := if nkn > 1 then A.div blend1 (A.ofInt nkn) else blend1
    let nkn1 := if nkn > 1 then nkn - 1 else nkn
    blend_loop A nn kn1 nkn1 blend2

/-- Lines 174-197: `BezierBlend(k, mu, n)`. -/
def BezierBlend {F : Type} (A : Arith F) (k : Int) (mu : F) (n : Int) : F :=
  let blend := blend_loop A n.toNat k (n - k) (A.ofInt 1)
  let blend := if k > 0 then A.mul blend (A.pow mu (A.ofInt k)) else blend
  if n - k > 0 then A.mul blend (A.pow (A.sub (A.ofInt 1) mu) (A.ofInt (n - k))) else blend

/-- Lines 207-216: the point that `BezierCPU` accumulates for `(mui, muj)`. -/
def cpu_point {F : Type} (A : Arith F) (inp : List (XYZ F)) (NI NJ : Int) (mui muj : F) :
    XYZ F :=
  (List.range (NI + 1).toNat).foldl
    (fun out (ki : Nat) =>
      (List.range (NJ + 1).toNat).foldl
        (fun out (kj : Nat) =>
          { x := A.add out.x (A.mul (A.mul
                (inp.getD ((ki : Int) * (NJ + 1) + (kj : Int)).toNat
                  ⟨A.ofInt 0, A.ofInt 0, A.ofInt 0⟩).x
                (BezierBlend A (ki : Int) mui NI)) (BezierBlend A (kj : Int) muj NJ)),
            y := A.add out.y (A.mul (A.mul
                (inp.getD ((ki : Int) * (NJ + 1) + (kj : Int)).toNat
                  ⟨A.ofInt 0, A.ofInt 0, A.ofInt 0⟩).y
                (BezierBlend A (ki : Int) mui NI)) (BezierBlend A (kj : Int) muj NJ)),
            z := A.add out.z (A.mul (A.mul
                (inp.getD ((ki : Int) * (NJ + 1) + (kj : Int)).toNat
                  ⟨A.ofInt 0, A.ofInt 0, A.ofInt 0⟩).z
                (BezierBlend A (ki : Int) mui NI)) (BezierBlend A (kj : Int) muj NJ)) })
        out)
    ⟨A.ofInt 0, A.ofInt 0, A.ofInt 0⟩

/-- Lines 200-220: `BezierCPU`; the result is the array `outp`. -/
def BezierCPU {F : Type} (A : Arith F) (inp outp : List (XYZ F))
    (NI NJ RESOLUTIONI RESOLUTIONJ : Int) : List (XYZ F) :=
  (List.range RESOLUTIONI.toNat).foldl
    (fun outp (i : Nat) =>
      (List.range RESOLUTIONJ.toNat).foldl
        (fun outp (j : Nat) =>
          outp.set ((i : Int) * RESOLUTIONJ + (j : Int)).toNat
            (cpu_point A inp NI NJ
              (A.div (A.ofInt (i : Int)) (A.ofInt (RESOLUTIONI - 1)))
              (A.div (A.ofInt (j : Int)) (A.ofInt (RESOLUTIONJ - 1)))))
        outp)
    outp

/-- Lines 235-246: the point that `BezierGPU` accumulates for `(mui, muj)`. -/
def gpu_point {F : Type} (A : Arith F) (inp : List (XYZ F)) (NI NJ : Int) (mui muj : F) :
    XYZ F :=
  (List.range (NI + 1).toNat).foldl
    (fun out (ki : Nat) =>
      (List.range (NJ + 1).toNat).foldl
        (fun out (kj : Nat) =>
          { x := A.add out.x (A.mul (A.mul
                (inp.getD ((ki : Int) * (NJ + 1) + (kj : Int)).toNat
                  ⟨A.ofInt 0, A.ofInt 0, A.ofInt 0⟩).x
                (BezierBlend A (ki : Int) mui NI)) (BezierBlend A (kj : Int) muj NJ)),
            y := A.add out.y (A.mul (A.mul
                (inp.getD ((ki : Int) * (NJ + 1) + (kj : Int)).toNat
                  ⟨A.ofInt 0, A.ofInt 0, A.ofInt 0⟩).y
                (BezierBlend A (ki : Int) mui NI)) (BezierBlend A (kj : Int) muj NJ)),
            z := A.add out.z (A.mul (A.mul
                (inp.getD ((ki : Int) * (NJ + 1) + (kj : Int)).toNat
                  ⟨A.ofInt 0, A.ofInt 0, A.ofInt 0⟩).z
                (BezierBlend A (ki : Int) mui NI)) (BezierBlend A (kj : Int) muj NJ)) })
        out)
    ⟨A.ofInt 0, A.ofInt 0, A.ofInt 0⟩

/-- Lines 223-250: `BezierGPU` for the work-item of group `group` and local id
`local_id`.  A write past the end of `outp` changes no element of it. -/
def BezierGPU {F : Type} (A : Arith F) (inp outp : List (XYZ F))
    (NI NJ RESOLUTIONI RESOLUTIONJ : Int) (local_range group local_id : Nat) :
    List (XYZ F) :=
  let i : Int := (local_range : Int) * (group : Int) + (local_id : Int)
  if i > RESOLUTIONI then outp
  else
    (List.range RESOLUTIONJ.toNat).foldl
      (fun outp (j : Nat) =>
        outp.set (i * RESOLUTIONJ + (j : Int)).toNat
          (gpu_point A inp NI NJ
            (A.div (A.ofInt i) (A.ofInt (RESOLUTIONI - 1)))
            (A.div (A.ofInt (j : Int)) (A.ofInt (RESOLUTIONJ - 1)))))
      outp

/-- Lines 252-315: `run`, up to the call of `compare_output`: the pair
`(gpu_out, cpu_out)`.  The host runs `BezierCPU` with the operations `H`, the
device runs `(out_size_i + work_group_size - 1) / work_group_size` groups of
`work_group_size` work-items with the operations `D`; `cpu_mem` and `dev_mem`
are the contents of the freshly allocated `cpu_out` and `d_out`. -/
def run {F : Type} (D H : Arith F) (inp : List (XYZ F))
    (in_size_i in_size_j out_size_i out_size_j work_group_size : Int)
    (cpu_mem dev_mem : List (XYZ F)) : List (XYZ F) × List (XYZ F) :=
  let cpu_out := BezierCPU H inp cpu_mem in_size_i in_size_j out_size_i out_size_j
  let d_in := inp.take ((in_size_i + 1) * (in_size_j + 1)).toNat
  let groups := (Int.tdiv (out_size_i + work_group_size - 1) work_group_size).toNat
  let d_out := (List.range groups).foldl
    (fun outp group => (List.range work_group_size.toNat).foldl
      (fun outp local_id => BezierGPU D d_in outp in_size_i in_size_j out_size_i out_size_j
        work_group_size.toNat group local_id) outp)
    dev_mem
  let gpu_out := d_out
  (gpu_out, cpu_out)

/-- Integer arithmetic standing in for the `FLOAT` operations, for concrete runs. -/
def int_arith : Arith Int :=
  { add := fun a b => a + b, sub := fun a b => a - b, mul := fun a b => a * b,
    div := fun a b => a / b, pow := fun a b => a ^ b.toNat, ofInt := fun n => n }

/-- A point with three equal coordinates, for concrete runs. -/
def dot (v : Int) : XYZ Int := { x := v, y := v, z := v }

end Bezier

namespace SeamCarving

/-- Modelled from the spec: the columns the tracer visits, left unchecked:
from column `col` in row `rows - 1` it walks "toward the boundary row one row
at a time", the column in the row before being the one "implied by the
stored/derived direction" `direction row col` (the offset to the predecessor
column).  The columns are listed from row `rows - 1` down to row 0. -/
def walk (direction : Nat → Int → Int) : Nat → Int → List Int
  | 0, _ => []
  | row + 1, col => col :: walk direction row (col + direction row col)

/-- Modelled from the spec: the tracer with its check: it "fails ... if a
traced column ever falls outside `[0, w_cur)`" (`none`), and otherwise appends
"the column index for that row". -/
def trace_rows (direction : Nat → Int → Int) (current_w : Int) : Nat → Int → Option (List Int)
  | 0, _ => some []
  | row + 1, col =>
    if 0 ≤ col ∧ col < current_w then
      (trace_rows direction current_w row (col + direction row col)).map (fun seam => col :: seam)
    else none

/-- Modelled from the spec: `find_seam` of `kernels_wrapper.h`, which is not
among the sources.  Called as `find_seam(q, current_w, w, h, d_M, d_indices,
d_seam)`, it starts at `(h - 1, minIndex)`, `minIndex` being the front of
`d_indices`, and traces `h` rows; the result is the new content of `d_seam`,
entry `r` being the column of row `r`, or `none` for the internal failure.
How a direction is stored or derived from `M` is left open by the spec and is
the parameter `direction`. -/
def find_seam (direction : Nat → Int → Int) (current_w _w h : Int) (_d_M d_indices : List Int)
    (_d_seam : List Int) : Option (List Int) :=
  (trace_rows direction current_w h.toNat (d_indices.getD 0 0)).map List.reverse

end SeamCarving

namespace D2q9

/-- Line 64: `LOCALSIZEX`. -/
def LOCALSIZEX : Int := 128

/-- Line 65: `LOCALSIZEY`. -/
def LOCALSIZEY : Int := 1

/-- The neighbour indices of a cell. -/
structure Neighbours where
  y_n : Int
  x_e : Int
  y_s : Int
  x_w : Int
deriving DecidableEq

/-- Lines 295-298: the indices of the axis-direction neighbours of the cell
`(ii, jj)`; `%` is the remainder of C. -/
def neighbours (Nx Ny ii jj : Int) : Neighbours :=
  { y_n := Int.tmod (jj + 1) Ny,
    x_e := Int.tmod (ii + 1) Nx,
    y_s := if jj = 0 then jj + Ny - 1 else jj - 1,
    x_w := if ii = 0 then ii + Nx - 1 else ii - 1 }

/-- Lines 304-312: the array indices that the propagation step builds from
the cell and its neighbours. -/
def stencil_indices (Nx Ny ii jj : Int) : List Int :=
  [ii + jj * Nx,
   (neighbours Nx Ny ii jj).x_w + jj * Nx,
   ii + (neighbours Nx Ny ii jj).y_s * Nx,
   (neighbours Nx Ny ii jj).x_e + jj * Nx,
   ii + (neighbours Nx Ny ii jj).y_n * Nx,
   (neighbours Nx Ny ii jj).x_w + (neighbours Nx Ny ii jj).y_s * Nx,
   (neighbours Nx Ny ii jj).x_e + (neighbours Nx Ny ii jj).y_s * Nx,
   (neighbours Nx Ny ii jj).x_e + (neighbours Nx Ny ii jj).y_n * Nx,
   (neighbours Nx Ny ii jj).x_w + (neighbours Nx Ny ii jj).y_n * Nx]

/-- Line 235: the numbers of work-groups of the range `(Ny, Nx)` with local
range `(LOCALSIZEY, LOCALSIZEX)`: `get_group_range(0)` and
`get_group_range(1)`. -/
def group_range (Nx Ny : Int) : Int × Int :=
  (Int.tdiv Ny LOCALSIZEY, Int.tdiv Nx LOCALSIZEX)

/-- Lines 435-436: the index at which the first work-item of the group
`(group_id2, group_id)` stores the partial sums of timestep `tt`. -/
def partial_sum_index (group_id group_id2 group_size group_size2 tt : Int) : Int :=
  group_id + group_id2 * group_size + tt * group_size * group_size2

/-- The indices written in timestep `tt`, one per work-group, the groups
taken row by row. -/
def kernel_written (Nx Ny tt : Int) : List Int :=
  (List.range (group_range Nx Ny).1.toNat).flatMap (fun (group_id2 : Nat) =>
    (List.range (group_range Nx Ny).2.toNat).flatMap (fun (group_id : Nat) =>
      [partial_sum_index (group_id : Int) (group_id2 : Int) (group_range Nx Ny).2
        (group_range Nx Ny).1 tt]))

/-- Lines 494-496: the indices `i+tt*Nx/LOCALSIZEX*Ny/LOCALSIZEY` that the
host sums into `av_vels[tt]`, for `i` below `Nx/LOCALSIZEX*Ny/LOCALSIZEY`;
products and quotients are taken from left to right, as C does. -/
def host_summed (Nx Ny tt : Int) : List Int :=
  (List.range (Int.tdiv (Int.tdiv Nx LOCALSIZEX * Ny) LOCALSIZEY).toNat).map (fun (i : Nat) =>
    (i : Int) + Int.tdiv (Int.tdiv (tt * Nx) LOCALSIZEX * Ny) LOCALSIZEY)

/-- The `float` operations of `write_values`, left uninterpreted: `lit m e`
is the constant written `m * 10^(-e)` in the source. -/
structure Arith (F : Type) where
  add : F → F → F
  sub : F → F → F
  mul : F → F → F
  div : F → F → F
  sqrtf : F → F
  lit : Int → Nat → F

/-- Lines 72-81: `t_param`. -/
structure t_param (F : Type) where
  nx : Int
  ny : Int
  maxIters : Int
  reynolds_dim : Int
  density : F
  accel : F
  omega : F

/-- One line of the final-state file: the arguments of the `fprintf` of
line 843. -/
structure Record (F : Type) where
  ii : Int
  jj : Int
  u_x : F
  u_y : F
  u : F
  pressure : F
  flag : Int
deriving DecidableEq

/-- Line 805: the index of the obstacle flag that selects the branch. -/
def branch_index (nx ii jj : Int) : Int := ii + jj * nx

/-- Line 843: the index of the obstacle flag that is printed. -/
def printed_index (nx ii jj : Int) : Int := ii * nx + jj

/-- The speed `kk` of a cell (`cells[...].speeds[kk]`). -/
def speed {F : Type} (A : Arith F) (cells : List (List F)) (ix : Int) (kk : Nat) : F :=
  (cells.getD ix.toNat []).getD kk (A.lit 0 0)

/-- Lines 803-843: the record written for the cell `(ii, jj)`. -/
def cell_record {F : Type} (A : Arith F) (params : t_param F) (cells : List (List F))
    (obstacles : List Int) (ii jj : Int) : Record F :=
  let c_sq := A.div (A.lit 1 0) (A.lit 3 0)
  let ix := branch_index params.nx ii jj
  let flag := obstacles.getD (printed_index params.nx ii jj).toNat 0
  if obstacles.getD ix.toNat 0 ≠ 0 then
    { ii := ii, jj := jj, u_x := A.lit 0 0, u_y := A.lit 0 0, u := A.lit 0 0,
      pressure := A.mul params.density c_sq, flag := flag }
  else
    let local_density := (List.range 9).foldl
      (fun acc (kk : Nat) => A.add acc (speed A cells ix kk)) (A.lit 0 0)
    let u_x := A.div
      (A.sub (A.add (A.add (speed A cells ix 1) (speed A cells ix 5)) (speed A cells ix 8))
        (A.add (A.add (speed A cells ix 3) (speed A cells ix 6)) (speed A cells ix 7)))
      local_density
    let u_y := A.div
      (A.sub (A.add (A.add (speed A cells ix 2) (speed A cells ix 5)) (speed A cells ix 6))
        (A.add (A.add (speed A cells ix 4) (speed A cells ix 7)) (speed A cells ix 8)))
      local_density
    { ii := ii, jj := jj, u_x := u_x, u_y := u_y,
      u := A.sqrtf (A.add (A.mul u_x u_x) (A.mul u_y u_y)),
      pressure := A.mul local_density c_sq, flag := flag }

/-- Lines 783-862: `write_values` with both files opened: the records of the
final-state file, row by row, and the lines of the average-velocity file. -/
def write_values {F : Type} (A : Arith F) (params : t_param F) (cells : List (List F))
    (obstacles : List Int) (av_vels : List F) : List (Record F) × List (Int × F) :=
  ((List.range params.ny.toNat).flatMap (fun (jj : Nat) =>
      (List.range params.nx.toNat).map (fun (ii : Nat) =>
        cell_record A params cells obstacles (ii : Int) (jj : Int))),
   (List.range params.maxIters.toNat).map (fun (ii : Nat) =>
      ((ii : Int), av_vels.getD ii (A.lit 0 0))))

/-- Integer arithmetic standing in for the float operations, for concrete runs. -/
def int_arith : Arith Int :=
  { add := fun a b => a + b, sub := fun a b => a - b, mul := fun a b => a * b,
    div := fun a b => a / b, sqrtf := fun a => a, lit := fun m _ => m }

/-- Parameters of a grid of `nx` by `ny` cells, for concrete runs. -/
def grid_params (nx ny : Int) : t_param Int :=
  { nx := nx, ny := ny, maxIters := 0, reynolds_dim := 1, density := 1, accel := 1, omega := 1 }

/-- Four cells with speed 1 equal to 5 and all other speeds 0. -/
def east_flow : List (List Int) :=
  [[0, 5, 0, 0, 0, 0, 0, 0, 0], [0, 5, 0, 0, 0, 0, 0, 0, 0],
   [0, 5, 0, 0, 0, 0, 0, 0, 0], [0, 5, 0, 0, 0, 0, 0, 0, 0]]

end D2q9

namespace Sobol

/-- Line 149: `threadsperblock`. -/
def threadsperblock : Int := 64

/-- The conversion of an `int` to `unsigned int`. -/
def to_unsigned (x : Int) : Nat := (x % 4294967296).toNat

/-- The conversion of an `int` to `size_t`, the element type of `sycl::range`. -/
def to_size_t (x : Int) : Nat := (x % 18446744073709551616).toNat

/-- Lines 167-184: `targetDimGridX`, the grid size in dimension 2 before it
is rounded: `4 * 24` or 1 by the number of dimensions, capped when the
number of vectors is small. -/
def targetDimGridX (n_vectors n_dimensions : Int) : Nat :=
  let dimGrid2 : Nat := if n_dimensions < 4 * 24 then 4 * 24 else 1
  let dimGrid2 : Nat :=
    if dimGrid2 > to_unsigned (Int.tdiv n_vectors threadsperblock) then
      to_size_t (Int.tdiv (n_vectors + threadsperblock - 1) threadsperblock)
    else dimGrid2
  dimGrid2 % 4294967296

/-- Line 186: `for (dimGrid[2] = 1; dimGrid[2] < targetDimGridX; dimGrid[2] *= 2);`
from the value `d` on, allowed at most `fuel` doublings. -/
def round_loop (target : Nat) : Nat → Nat → Option Nat
  | fuel, d =>
    if d < target then
      match fuel with
      | 0 => none
      | fuel + 1 => round_loop target fuel (d * 2 % 18446744073709551616)
    else some d

/-- Lines 152-188 of `sobolGPU`: the grid `(dimGrid[0], dimGrid[1],
dimGrid[2])` of the execution configuration. -/
def sobolGPU_grid (fuel : Nat) (n_vectors n_dimensions : Int) : Option (Nat × Nat × Nat) :=
  (round_loop (targetDimGridX n_vectors n_dimensions) fuel 1).map
    (fun dimGrid2 => (1, to_size_t n_dimensions, dimGrid2))

/-- Line 77: the stride of the kernel, `get_group_range(2) * get_local_range(2)`,
for the block size that line 188 fixes. -/
def stride (dimGrid2 : Nat) : Int := (dimGrid2 : Int) * threadsperblock

end Sobol

namespace Bezier

/-- Lines 228-247: the indices of `outp` that the work-item of group `group`
and local id `local_id` writes: none when the guard returns, and
`i * RESOLUTIONJ + j` for every `j < RESOLUTIONJ` otherwise. -/
def BezierGPU_writes (RESOLUTIONI RESOLUTIONJ : Int) (local_range group local_id : Nat) :
    List Int :=
  let i : Int := (local_range : Int) * (group : Int) + (local_id : Int)
  if i > RESOLUTIONI then []
  else (List.range RESOLUTIONJ.toNat).map (fun (j : Nat) => i * RESOLUTIONJ + (j : Int))

/-- Lines 282-283: the number of work-groups of the launch in `run`. -/
def launch_groups (out_size_i work_group_size : Int) : Nat :=
  (Int.tdiv (out_size_i + work_group_size - 1) work_group_size).toNat

/-- The `FLOAT` operations read over the rationals; `pow` is applied to
exponents that are converted integers. -/
def rat_arith : Arith ℚ :=
  { add := fun a b => a + b, sub := fun a b => a - b, mul := fun a b => a * b,
    div := fun a b => a / b, pow := fun a b => a ^ b.num.toNat, ofInt := fun n => (n : ℚ) }

end Bezier

namespace Haccmk

end Haccmk

namespace SeamCarving

/-- Lines 118-123 and 126-128: the state in which the iteration that starts
at `s` calls `find_min_index`: after `compute_costs` (standard mode) and
`compute_M`, or after `approx_setup` and `approx_M`. -/
def find_min_index_site (K : Kernels) (mode : seam_carver_mode) (s : State) : State :=
  let s1 := if mode = seam_carver_mode.SEAM_CARVER_STANDARD_MODE then call_compute_costs K s else s
  if mode ≠ seam_carver_mode.SEAM_CARVER_APPROX_MODE then call_compute_M K s1
  else call_approx_M K (call_approx_setup K s1)

/-- A 3x2 image with 3 channels. -/
def tall_image : Image :=
  { imgv := [1, 2, 3, 4, 5, 6, 7, 8, 9, 10, 11, 12, 13, 14, 15, 16, 17, 18],
    w := 3, h := 2, ncomp := 3 }

/-- Kernels for concrete runs that show what `find_min_index` is handed:
`compute_M` and `approx_M` fill the table of a 3x2 image with 10, ..., 60 and
`find_min_index` stores the sub-buffer it receives; the others leave their
buffers alone. -/
def probe_kernels : Kernels :=
  { idle_kernels with
    compute_M := fun _ _ _ _ _ _ _ => [10, 20, 30, 40, 50, 60],
    approx_M := fun _ _ _ o _ => (o, [10, 20, 30, 40, 50, 60]),
    find_min_index := fun _ _ _ reduce_row => reduce_row }

/-- A world for concrete runs with the kernels `probe_kernels`. -/
def probe_world (n : Int) (img : Image) : World :=
  { demo_world n img with kernels := probe_kernels }

/-- The loop head reached after one iteration on the 3x2 image with the
kernels `probe_kernels`. -/
def probe_head (mode : seam_carver_mode) : State :=
  loop_body probe_kernels mode (initial_state (probe_world 2 tall_image) mode tall_image)

end SeamCarving

/-! ## Theorems -/

namespace SeamCarving

theorem long_to_int_id (n : Int) (h0 : -2147483648 ≤ n) (h1 : n ≤ INT_MAX) :
    long_to_int n = n := by
  unfold long_to_int
  unfold INT_MAX at h1
  omega

theorem loop_body_w (K : Kernels) (mode : seam_carver_mode) (s : State) :
    (loop_body K mode s).w = s.w := by
  cases mode <;>
    simp [loop_body, removal_steps, seam_steps, swap_pixels, swap_costs, call_compute_costs,
      call_compute_M, call_find_min_index, call_find_seam, call_approx_setup, call_approx_M,
      call_approx_seam, call_remove_seam, call_update_costs]

theorem loop_body_h (K : Kernels) (mode : seam_carver_mode) (s : State) :
    (loop_body K mode s).h = s.h := by
  cases mode <;>
    simp [loop_body, removal_steps, seam_steps, swap_pixels, swap_costs, call_compute_costs,
      call_compute_M, call_find_min_index, call_find_seam, call_approx_setup, call_approx_M,
      call_approx_seam, call_remove_seam, call_update_costs]

theorem loop_body_current_w (K : Kernels) (mode : seam_carver_mode) (s : State) :
    (loop_body K mode s).current_w = s.current_w - 1 := by
  cases mode <;>
    simp [loop_body, removal_steps, seam_steps, swap_pixels, swap_costs, call_compute_costs,
      call_compute_M, call_find_min_index, call_find_seam, call_approx_setup, call_approx_M,
      call_approx_seam, call_remove_seam, call_update_costs]

theorem loop_body_num_iterations (K : Kernels) (mode : seam_carver_mode) (s : State) :
    (loop_body K mode s).num_iterations = s.num_iterations + 1 := by
  cases mode <;>
    simp [loop_body, removal_steps, seam_steps, swap_pixels, swap_costs, call_compute_costs,
      call_compute_M, call_find_min_index, call_find_seam, call_approx_setup, call_approx_M,
      call_approx_seam, call_remove_seam, call_update_costs]

theorem loop_body_trace (K : Kernels) (mode : seam_carver_mode) (s : State) :
    (loop_body K mode s).trace = s.trace ++ cycle_calls mode s.w s.h s.current_w := by
  cases mode <;>
    simp [loop_body, removal_steps, seam_steps, swap_pixels, swap_costs, call_compute_costs,
      call_compute_M, call_find_min_index, call_find_seam, call_approx_setup, call_approx_M,
      call_approx_seam, call_remove_seam, call_update_costs, cycle_calls]

/-- With enough iterations allowed, the loop returns the state reached by
running the body once for every count from `num_iterations` up to the bound. -/
theorem engine_loop_iterate (K : Kernels) (mode : seam_carver_mode) (n : Int) :
    ∀ (k fuel : Nat) (s : State), k ≤ fuel →
      (long_to_int n - s.num_iterations).toNat = k →
      engine_loop K mode n fuel s = some (Nat.iterate (loop_body K mode) k s) := by
  intro k
  induction k with
  | zero =>
    intro fuel s _ hk
    have hc : loop_cond n s = false := by
      simp only [loop_cond, decide_eq_false_iff_not]
      omega
    unfold engine_loop
    simp [hc]
  | succ k ih =>
    intro fuel s hf hk
    have hc : loop_cond n s = true := by
      simp only [loop_cond, decide_eq_true_eq]
      omega
    cases fuel with
    | zero => omega
    | succ fuel =>
      unfold engine_loop
      simp only [hc, if_true, Function.iterate_succ, Function.comp_apply]
      apply ih fuel (loop_body K mode s) (by omega)
      rw [loop_body_num_iterations]
      omega

theorem iterate_w (K : Kernels) (mode : seam_carver_mode) :
    ∀ (k : Nat) (s : State), (Nat.iterate (loop_body K mode) k s).w = s.w := by
  intro k
  induction k with
  | zero => intro s; rfl
  | succ k ih => intro s; rw [Function.iterate_succ_apply, ih, loop_body_w]

theorem iterate_h (K : Kernels) (mode : seam_carver_mode) :
    ∀ (k : Nat) (s : State), (Nat.iterate (loop_body K mode) k s).h = s.h := by
  intro k
  induction k with
  | zero => intro s; rfl
  | succ k ih => intro s; rw [Function.iterate_succ_apply, ih, loop_body_h]

theorem iterate_current_w (K : Kernels) (mode : seam_carver_mode) :
    ∀ (k : Nat) (s : State),
      (Nat.iterate (loop_body K mode) k s).current_w = s.current_w - (k : Int) := by
  intro k
  induction k with
  | zero => intro s; simp
  | succ k ih =>
    intro s
    rw [Function.iterate_succ_apply, ih, loop_body_current_w]
    push_cast
    omega

theorem iterate_num_iterations (K : Kernels) (mode : seam_carver_mode) :
    ∀ (k : Nat) (s : State),
      (Nat.iterate (loop_body K mode) k s).num_iterations = s.num_iterations + (k : Int) := by
  intro k
  induction k with
  | zero => intro s; simp
  | succ k ih =>
    intro s
    rw [Function.iterate_succ_apply, ih, loop_body_num_iterations]
    push_cast
    omega

theorem iterate_trace (K : Kernels) (mode : seam_carver_mode) :
    ∀ (k : Nat) (s : State),
      (Nat.iterate (loop_body K mode) k s).trace
        = s.trace ++ repeat_cycle mode s.w s.h k s.current_w := by
  intro k
  induction k with
  | zero => intro s; simp [repeat_cycle]
  | succ k ih =>
    intro s
    rw [Function.iterate_succ_apply, ih, loop_body_trace, loop_body_w, loop_body_h,
      loop_body_current_w]
    simp [repeat_cycle, List.append_assoc]

theorem initial_state_w (W : World) (mode : seam_carver_mode) (img : Image) :
    (initial_state W mode img).w = img.w := by
  cases mode <;> simp [initial_state, call_compute_costs]

theorem initial_state_h (W : World) (mode : seam_carver_mode) (img : Image) :
    (initial_state W mode img).h = img.h := by
  cases mode <;> simp [initial_state, call_compute_costs]

theorem initial_state_current_w (W : World) (mode : seam_carver_mode) (img : Image) :
    (initial_state W mode img).current_w = img.w := by
  cases mode <;> simp [initial_state, call_compute_costs]

theorem initial_state_num_iterations (W : World) (mode : seam_carver_mode) (img : Image) :
    (initial_state W mode img).num_iterations = 0 := by
  cases mode <;> simp [initial_state, call_compute_costs]

theorem initial_state_trace (W : World) (mode : seam_carver_mode) (img : Image) :
    (initial_state W mode img).trace
      = Call.build_pixels img.w img.h ::
          (if mode = seam_carver_mode.SEAM_CARVER_UPDATE_MODE
           then [Call.compute_costs img.w img.w img.h] else []) := by
  cases mode <;> simp [initial_state, call_compute_costs]

theorem initial_state_d_pixels (W : World) (mode : seam_carver_mode) (img : Image) :
    (initial_state W mode img).dev.d_pixels
      = { data := W.build_pixels img.imgv img.w img.h, host := true } := by
  cases mode <;> simp [initial_state, call_compute_costs]

theorem initial_state_d_pixels_swap (W : World) (mode : seam_carver_mode) (img : Image) :
    (initial_state W mode img).dev.d_pixels_swap
      = { data := W.uninit.d_pixels_swap.data, host := false } := by
  cases mode <;> simp [initial_state, call_compute_costs]

/-- On an accepted seam count the run is the loop body iterated `n` times from
the entry state, followed by the hand-over to the encoder. -/
theorem resize_accepted (W : World) (mode : seam_carver_mode) (fuel : Nat) (n : Int)
    (img : Image) (hw : img.w ≤ INT_MAX) (h0 : 0 ≤ n) (hn : n < img.w)
    (hfuel : n.toNat ≤ fuel) :
    resize W mode fuel n img
      = some (finish W (Nat.iterate (loop_body W.kernels mode) n.toNat
          (initial_state W mode img))) := by
  unfold resize
  rw [engine_loop_iterate W.kernels mode n n.toNat fuel _ hfuel]
  · rfl
  · rw [initial_state_num_iterations, long_to_int_id n (by omega) (by omega)]
    simp

/-- Past the usage, conversion and load checks `main` is `checked_run`. -/
theorem main_loaded (W : World) (fuel : Nat) (argv : List String) (n : Int) (img : Image)
    (hargc : 3 ≤ argv.length) (hstr : W.strtol (argv.getD 2 "") = some n)
    (hload : W.stbi_load (argv.getD 1 "") = some img) :
    main W fuel argv = checked_run W fuel argv n img := by
  unfold main
  rw [if_neg (by omega), hstr, hload]

/-- For an accepted 3-channel image and seam count `main` is the engine run. -/
theorem main_accepted (W : World) (fuel : Nat) (argv : List String) (n : Int) (img : Image)
    (hargc : 3 ≤ argv.length) (hstr : W.strtol (argv.getD 2 "") = some n)
    (hload : W.stbi_load (argv.getD 1 "") = some img) (hc : img.ncomp = 3)
    (h0 : 0 ≤ n) (hn : n < img.w) :
    main W fuel argv = resize W (select_mode argv) fuel n img := by
  rw [main_loaded W fuel argv n img hargc hstr hload]
  unfold checked_run
  rw [if_neg (by simp [hc]), if_neg (by omega)]

/-- C1: for a loaded 3-channel image of width `w` and height `h` and a seam
count `0 ≤ n < w`, the run (in the mode the arguments select, and likewise the
engine run in each of the three modes) returns 0 and calls `stbi_write_bmp`
with width `w - n`, height `h` and 3 channels. -/
theorem output_dimensions (W : World) (fuel : Nat) (argv : List String) (n : Int)
    (img : Image) (hargc : 3 ≤ argv.length) (hstr : W.strtol (argv.getD 2 "") = some n)
    (hload : W.stbi_load (argv.getD 1 "") = some img) (hc : img.ncomp = 3)
    (hw : img.w ≤ INT_MAX) (h0 : 0 ≤ n) (hn : n < img.w) (hfuel : n.toNat ≤ fuel) :
    (∃ o, main W fuel argv = some o ∧ o.ret = 0 ∧
        written_dims o = some (img.w - n, img.h, 3) ∧
        Call.stbi_write_bmp (img.w - n) img.h 3 ∈ o.trace) ∧
    (∀ mode : seam_carver_mode, ∃ o, resize W mode fuel n img = some o ∧ o.ret = 0 ∧
        written_dims o = some (img.w - n, img.h, 3) ∧
        Call.stbi_write_bmp (img.w - n) img.h 3 ∈ o.trace) := by
  have key : ∀ mode : seam_carver_mode, ∃ o, resize W mode fuel n img = some o ∧
      o.ret = 0 ∧ written_dims o = some (img.w - n, img.h, 3) ∧
      Call.stbi_write_bmp (img.w - n) img.h 3 ∈ o.trace := by
    intro mode
    refine ⟨_, resize_accepted W mode fuel n img hw h0 hn hfuel, rfl, ?_, ?_⟩
    · simp only [written_dims, finish, iterate_current_w, iterate_h, initial_state_current_w,
        initial_state_h, Int.toNat_of_nonneg h0, Option.map_some']
    · simp only [finish, iterate_current_w, iterate_h, initial_state_current_w,
        initial_state_h, Int.toNat_of_nonneg h0]
      simp
  refine ⟨?_, key⟩
  rw [main_accepted W fuel argv n img hargc hstr hload hc h0 hn]
  exact key (select_mode argv)

/-- Witness of C1: a 2x1 image, one seam, standard mode. -/
theorem output_dimensions_witness :
    (∃ o, main (demo_world 1 (tiny_image 3)) 1 ["seam", "in.bmp", "1"] = some o ∧
        o.ret = 0 ∧ written_dims o = some ((tiny_image 3).w - 1, (tiny_image 3).h, 3) ∧
        Call.stbi_write_bmp ((tiny_image 3).w - 1) (tiny_image 3).h 3 ∈ o.trace) ∧
    (∀ mode : seam_carver_mode, ∃ o,
        resize (demo_world 1 (tiny_image 3)) mode 1 1 (tiny_image 3) = some o ∧ o.ret = 0 ∧
        written_dims o = some ((tiny_image 3).w - 1, (tiny_image 3).h, 3) ∧
        Call.stbi_write_bmp ((tiny_image 3).w - 1) (tiny_image 3).h 3 ∈ o.trace) :=
  output_dimensions (demo_world 1 (tiny_image 3)) 1 ["seam", "in.bmp", "1"] 1 (tiny_image 3)
    (by decide) rfl rfl rfl (by decide) (by decide) (by decide) (by decide)

/-- The state in which the executable loop stops is one of the loop heads,
and the loop condition fails there. -/
theorem engine_loop_exit_head (K : Kernels) (mode : seam_carver_mode) (n : Int) (s0 : State) :
    ∀ (fuel : Nat) (s sf : State), LoopHead K mode n s0 s →
      engine_loop K mode n fuel s = some sf →
      LoopHead K mode n s0 sf ∧ loop_cond n sf = false := by
  intro fuel
  induction fuel with
  | zero =>
    intro s sf hs hrun
    unfold engine_loop at hrun
    by_cases hc : loop_cond n s = true
    · simp [hc] at hrun
    · simp only [hc, Bool.false_eq_true, if_false, Option.some.injEq] at hrun
      subst hrun
      exact ⟨hs, by simpa using hc⟩
  | succ fuel ih =>
    intro s sf hs hrun
    unfold engine_loop at hrun
    by_cases hc : loop_cond n s = true
    · simp only [hc, if_true] at hrun
      exact ih (loop_body K mode s) sf (LoopHead.next s hs hc) hrun
    · simp only [hc, Bool.false_eq_true, if_false, Option.some.injEq] at hrun
      subst hrun
      exact ⟨hs, by simpa using hc⟩

/-- C2: at every head of the engine loop, in every mode, `current_w` equals
`w - num_iterations` and `w`, `h` still hold the loaded width and height; the
body run from there lowers `current_w` by exactly 1, raises `num_iterations`
by exactly 1 and leaves `w` and `h` alone. -/
theorem loop_invariant (W : World) (mode : seam_carver_mode) (n : Int) (img : Image)
    (s : State) (hs : LoopHead W.kernels mode n (initial_state W mode img) s) :
    s.current_w = img.w - s.num_iterations ∧ s.w = img.w ∧ s.h = img.h ∧
    (loop_body W.kernels mode s).current_w = s.current_w - 1 ∧
    (loop_body W.kernels mode s).num_iterations = s.num_iterations + 1 ∧
    (loop_body W.kernels mode s).w = s.w ∧ (loop_body W.kernels mode s).h = s.h := by
  refine ⟨?_, ?_, ?_, loop_body_current_w _ _ _, loop_body_num_iterations _ _ _,
    loop_body_w _ _ _, loop_body_h _ _ _⟩
  · induction hs with
    | entry => rw [initial_state_current_w, initial_state_num_iterations]; omega
    | next s _ _ ih => rw [loop_body_current_w, loop_body_num_iterations]; omega
  · induction hs with
    | entry => exact initial_state_w W mode img
    | next s _ _ ih => rw [loop_body_w]; exact ih
  · induction hs with
    | entry => exact initial_state_h W mode img
    | next s _ _ ih => rw [loop_body_h]; exact ih

/-- C3: for a loaded 3-channel image of width `w`, `main` returns 1 exactly
when the seam count `n` has `n < 0` or `n ≥ w`; for `0 ≤ n < w` the run is
the engine loop entered from the initial state, and it returns 0 once the
loop is allowed its `n` iterations. -/
theorem seam_count_check (W : World) (fuel : Nat) (argv : List String) (n : Int)
    (img : Image) (hargc : 3 ≤ argv.length) (hstr : W.strtol (argv.getD 2 "") = some n)
    (hload : W.stbi_load (argv.getD 1 "") = some img) (hc : img.ncomp = 3) :
    ((∃ o, main W fuel argv = some o ∧ o.ret = 1) ↔ (n < 0 ∨ n ≥ img.w)) ∧
    (0 ≤ n → n < img.w →
      main W fuel argv
        = (engine_loop W.kernels (select_mode argv) n fuel
            (initial_state W (select_mode argv) img)).map (finish W)) ∧
    (0 ≤ n → n < img.w → img.w ≤ INT_MAX → n.toNat ≤ fuel →
      ∃ o sf, main W fuel argv = some o ∧ o.ret = 0 ∧ o.final = some sf) := by
  refine ⟨⟨?_, ?_⟩, ?_, ?_⟩
  · rintro ⟨o, ho, hret⟩
    by_contra hbad
    rw [main_accepted W fuel argv n img hargc hstr hload hc (by omega) (by omega)] at ho
    unfold resize at ho
    cases hrun : engine_loop W.kernels (select_mode argv) n fuel
        (initial_state W (select_mode argv) img) with
    | none => simp [hrun] at ho
    | some sf =>
      simp only [hrun, Option.map_some', Option.some.injEq] at ho
      subst ho
      simp [finish] at hret
  · intro hbad
    refine ⟨reject, ?_, rfl⟩
    rw [main_loaded W fuel argv n img hargc hstr hload]
    unfold checked_run
    rw [if_neg (by simp [hc]), if_pos hbad]
  · intro h0 hn
    rw [main_accepted W fuel argv n img hargc hstr hload hc h0 hn]
    rfl
  · intro h0 hn hw hfuel
    rw [main_accepted W fuel argv n img hargc hstr hload hc h0 hn,
      resize_accepted W (select_mode argv) fuel n img hw h0 hn hfuel]
    exact ⟨_, _, rfl, rfl, rfl⟩

/-- C4: a loaded image whose channel count is not 3 makes `main` return 1,
whatever the seam count and the mode; with 3 channels the outcome is that of
the seam-count check and the engine run alone, which return 0 for an
accepted seam count. -/
theorem channel_check (W : World) (fuel : Nat) (argv : List String) (n : Int)
    (img : Image) (hargc : 3 ≤ argv.length) (hstr : W.strtol (argv.getD 2 "") = some n)
    (hload : W.stbi_load (argv.getD 1 "") = some img) :
    (img.ncomp ≠ 3 → main W fuel argv = some reject ∧ reject.ret = 1) ∧
    (img.ncomp = 3 →
      main W fuel argv
        = if n < 0 ∨ n ≥ img.w then some reject
          else resize W (select_mode argv) fuel n img) ∧
    (img.ncomp = 3 → 0 ≤ n → n < img.w → img.w ≤ INT_MAX → n.toNat ≤ fuel →
      ∃ o, main W fuel argv = some o ∧ o.ret = 0) := by
  refine ⟨?_, ?_, ?_⟩
  · intro hc
    refine ⟨?_, rfl⟩
    rw [main_loaded W fuel argv n img hargc hstr hload]
    unfold checked_run
    rw [if_pos hc]
  · intro hc
    rw [main_loaded W fuel argv n img hargc hstr hload]
    unfold checked_run
    rw [if_neg (by simp [hc])]
  · intro hc h0 hn hw hfuel
    rw [main_accepted W fuel argv n img hargc hstr hload hc h0 hn,
      resize_accepted W (select_mode argv) fuel n img hw h0 hn hfuel]
    exact ⟨_, rfl, rfl⟩

/-- C5: on a configuration error (channel count other than 3, seam count
below 0 or not below the width) `main` returns 1 with an empty call record:
no `build_pixels`, no kernel wrapper and no `stbi_write_bmp` was invoked, the
loop was not reached and nothing was written. -/
theorem config_error_no_work (W : World) (fuel : Nat) (argv : List String) (n : Int)
    (img : Image) (hargc : 3 ≤ argv.length) (hstr : W.strtol (argv.getD 2 "") = some n)
    (hload : W.stbi_load (argv.getD 1 "") = some img)
    (hbad : img.ncomp ≠ 3 ∨ n < 0 ∨ n ≥ img.w) :
    ∃ o, main W fuel argv = some o ∧ o.ret = 1 ∧ o.trace = [] ∧ o.final = none ∧
      o.written = none := by
  refine ⟨reject, ?_, rfl, rfl, rfl, rfl⟩
  rw [main_loaded W fuel argv n img hargc hstr hload]
  unfold checked_run
  by_cases hc : img.ncomp ≠ 3
  · rw [if_pos hc]
  · rw [if_neg hc, if_pos (by tauto)]

/-- Witness of C2: the loop head after the one iteration of a one-seam run. -/
theorem loop_invariant_witness :
    demo_head.current_w = (tiny_image 3).w - demo_head.num_iterations ∧
    demo_head.w = (tiny_image 3).w ∧ demo_head.h = (tiny_image 3).h ∧
    (loop_body (demo_world 1 (tiny_image 3)).kernels
      seam_carver_mode.SEAM_CARVER_STANDARD_MODE demo_head).current_w
        = demo_head.current_w - 1 ∧
    (loop_body (demo_world 1 (tiny_image 3)).kernels
      seam_carver_mode.SEAM_CARVER_STANDARD_MODE demo_head).num_iterations
        = demo_head.num_iterations + 1 ∧
    (loop_body (demo_world 1 (tiny_image 3)).kernels
      seam_carver_mode.SEAM_CARVER_STANDARD_MODE demo_head).w = demo_head.w ∧
    (loop_body (demo_world 1 (tiny_image 3)).kernels
      seam_carver_mode.SEAM_CARVER_STANDARD_MODE demo_head).h = demo_head.h :=
  loop_invariant (demo_world 1 (tiny_image 3)) seam_carver_mode.SEAM_CARVER_STANDARD_MODE 1
    (tiny_image 3) demo_head (LoopHead.next _ LoopHead.entry (by decide))

/-- Witness of C3: one seam of a 2x1 image is accepted. -/
theorem seam_count_check_witness :
    ((∃ o, main (demo_world 1 (tiny_image 3)) 1 ["seam", "in.bmp", "1"] = some o ∧ o.ret = 1)
      ↔ ((1 : Int) < 0 ∨ (1 : Int) ≥ (tiny_image 3).w)) ∧
    ((0 : Int) ≤ 1 → (1 : Int) < (tiny_image 3).w →
      main (demo_world 1 (tiny_image 3)) 1 ["seam", "in.bmp", "1"]
        = (engine_loop (demo_world 1 (tiny_image 3)).kernels
            (select_mode ["seam", "in.bmp", "1"]) 1 1
            (initial_state (demo_world 1 (tiny_image 3))
              (select_mode ["seam", "in.bmp", "1"]) (tiny_image 3))).map
            (finish (demo_world 1 (tiny_image 3)))) ∧
    ((0 : Int) ≤ 1 → (1 : Int) < (tiny_image 3).w → (tiny_image 3).w ≤ INT_MAX →
      (1 : Int).toNat ≤ 1 →
      ∃ o sf, main (demo_world 1 (tiny_image 3)) 1 ["seam", "in.bmp", "1"] = some o ∧
        o.ret = 0 ∧ o.final = some sf) :=
  seam_count_check (demo_world 1 (tiny_image 3)) 1 ["seam", "in.bmp", "1"] 1 (tiny_image 3)
    (by decide) rfl rfl rfl

/-- Witness of C4: a 4-channel 2x1 image. -/
theorem channel_check_witness :
    ((tiny_image 4).ncomp ≠ 3 →
      main (demo_world 1 (tiny_image 4)) 1 ["seam", "in.bmp", "1"] = some reject ∧
        reject.ret = 1) ∧
    ((tiny_image 4).ncomp = 3 →
      main (demo_world 1 (tiny_image 4)) 1 ["seam", "in.bmp", "1"]
        = if (1 : Int) < 0 ∨ (1 : Int) ≥ (tiny_image 4).w then some reject
          else resize (demo_world 1 (tiny_image 4)) (select_mode ["seam", "in.bmp", "1"]) 1 1
            (tiny_image 4)) ∧
    ((tiny_image 4).ncomp = 3 → (0 : Int) ≤ 1 → (1 : Int) < (tiny_image 4).w →
      (tiny_image 4).w ≤ INT_MAX → (1 : Int).toNat ≤ 1 →
      ∃ o, main (demo_world 1 (tiny_image 4)) 1 ["seam", "in.bmp", "1"] = some o ∧ o.ret = 0) :=
  channel_check (demo_world 1 (tiny_image 4)) 1 ["seam", "in.bmp", "1"] 1 (tiny_image 4)
    (by decide) rfl rfl

/-- Witness of C5: two seams asked of a 2-pixel-wide image. -/
theorem config_error_no_work_witness :
    ∃ o, main (demo_world 2 (tiny_image 3)) 0 ["seam", "in.bmp", "2", "-u"] = some o ∧
      o.ret = 1 ∧ o.trace = [] ∧ o.final = none ∧ o.written = none :=
  config_error_no_work (demo_world 2 (tiny_image 3)) 0 ["seam", "in.bmp", "2", "-u"] 2 (tiny_image 3)
    (by decide) rfl rfl (Or.inr (Or.inr (by decide)))

/-- The record of calls of an accepted run: `build_pixels`, the initial
`compute_costs` of update mode, `n` cycles at widths `w, w-1, ...`, then
`flatten_pixels` and `stbi_write_bmp`. -/
theorem resize_trace (W : World) (mode : seam_carver_mode) (fuel : Nat) (n : Int)
    (img : Image) (hw : img.w ≤ INT_MAX) (h0 : 0 ≤ n) (hn : n < img.w)
    (hfuel : n.toNat ≤ fuel) :
    ∃ o sf, resize W mode fuel n img = some o ∧ o.ret = 0 ∧ o.final = some sf ∧
      sf.num_iterations = n ∧
      o.trace = Call.build_pixels img.w img.h ::
        ((if mode = seam_carver_mode.SEAM_CARVER_UPDATE_MODE
          then [Call.compute_costs img.w img.w img.h] else []) ++
         (repeat_cycle mode img.w img.h n.toNat img.w ++
          [Call.flatten_pixels img.w img.h (img.w - n),
           Call.stbi_write_bmp (img.w - n) img.h 3])) := by
  refine ⟨_, _, resize_accepted W mode fuel n img hw h0 hn hfuel, rfl, rfl, ?_, ?_⟩
  · rw [iterate_num_iterations, initial_state_num_iterations, Int.toNat_of_nonneg h0]
    omega
  · simp only [finish, iterate_trace, iterate_w, iterate_h, iterate_current_w,
      initial_state_trace, initial_state_w, initial_state_h, initial_state_current_w,
      Int.toNat_of_nonneg h0, List.cons_append, List.append_assoc]

theorem rows_flat {α : Type} (F : Nat → List α) (W : Nat) :
    ∀ h : Nat,
      (List.range h).flatMap (fun r => (List.range W).flatMap (fun c => F (r * W + c)))
        = (List.range (h * W)).flatMap F := by
  intro h
  induction h with
  | zero => simp
  | succ h ih =>
    rw [List.range_succ, List.flatMap_append, ih, Nat.succ_mul, List.range_add,
      List.flatMap_append, List.flatMap_map]
    simp

theorem triples_flat : ∀ (m : Nat) (l : List Nat), l.length = 3 * m →
    (List.range m).flatMap
        (fun i => [l.getD (3 * i) 0, l.getD (3 * i + 1) 0, l.getD (3 * i + 2) 0]) = l := by
  intro m
  induction m with
  | zero => intro l hl; simp at hl; simp [hl]
  | succ m ih =>
    intro l hl
    match l, hl with
    | a :: b :: c :: l', hl =>
      rw [List.range_succ_eq_map, List.flatMap_cons, List.flatMap_map]
      have hl' : l'.length = 3 * m := by simp at hl; omega
      have hrest := ih l' hl'
      simp only [Nat.succ_eq_add_one, Nat.mul_add, Nat.mul_one]
      simp only [Nat.mul_zero, List.getD_cons_zero, Nat.zero_add, List.getD_cons_succ,
        List.cons_append, List.nil_append]
      rw [hrest]

/-- Flattening the freshly built grid at its full width gives back the flat
buffer it was built from. -/
theorem flatten_build (imgv : List Nat) (w h : Int) (hw : 0 ≤ w) (hh : 0 ≤ h)
    (hlen : imgv.length = 3 * (w * h).toNat) :
    flatten_pixels (build_pixels imgv w h) w h w = imgv := by
  lift w to ℕ using hw
  lift h to ℕ using hh
  have hN : ((w : Int) * (h : Int)).toNat = h * w := by
    rw [← Nat.cast_mul, Int.toNat_natCast, Nat.mul_comm]
  rw [hN] at hlen
  unfold flatten_pixels
  simp only [Int.toNat_natCast]
  refine (rows_flat
    (fun i => channels ((build_pixels imgv w h).getD i ⟨0, 0, 0, 0⟩)) w h).trans ?_
  rw [List.flatMap_def]
  rw [List.map_congr_left
    (g := fun i => [imgv.getD (3 * i) 0, imgv.getD (3 * i + 1) 0, imgv.getD (3 * i + 2) 0])]
  · rw [← List.flatMap_def]
    exact triples_flat (h * w) imgv hlen
  · intro i hi
    rw [List.mem_range] at hi
    unfold build_pixels
    rw [hN, List.getD_eq_getElem _ _ (by simpa using hi)]
    simp [channels]

/-- C6: with seam count 0, in whatever mode the arguments select, the loop
stops at its first head: the state at its exit is the entry state, so no
iteration ran, `d_pixels` is still the host-backed buffer holding the result
of `build_pixels` and `d_pixels_swap` the untouched scratch buffer; the calls
made are `build_pixels`, the initial `compute_costs` of update mode,
`flatten_pixels` at width `w` and `stbi_write_bmp`; the data written is
`flatten_pixels` of the `build_pixels` grid, which for the helpers modelled
from the spec is the input buffer itself. -/
theorem zero_seams_identity (W : World) (fuel : Nat) (argv : List String) (img : Image)
    (hargc : 3 ≤ argv.length) (hstr : W.strtol (argv.getD 2 "") = some 0)
    (hload : W.stbi_load (argv.getD 1 "") = some img) (hc : img.ncomp = 3)
    (hw : 0 < img.w) :
    ∃ o sf, main W fuel argv = some o ∧ o.ret = 0 ∧ o.final = some sf ∧
      sf = initial_state W (select_mode argv) img ∧
      sf.num_iterations = 0 ∧ sf.current_w = img.w ∧
      sf.dev.d_pixels = { data := W.build_pixels img.imgv img.w img.h, host := true } ∧
      sf.dev.d_pixels_swap = { data := W.uninit.d_pixels_swap.data, host := false } ∧
      o.trace = Call.build_pixels img.w img.h ::
        ((if select_mode argv = seam_carver_mode.SEAM_CARVER_UPDATE_MODE
          then [Call.compute_costs img.w img.w img.h] else []) ++
         [Call.flatten_pixels img.w img.h img.w, Call.stbi_write_bmp img.w img.h 3]) ∧
      o.written = some (img.w, img.h, 3,
        W.flatten_pixels (W.build_pixels img.imgv img.w img.h) img.w img.h img.w) ∧
      (W.build_pixels = build_pixels → W.flatten_pixels = flatten_pixels → 0 ≤ img.h →
        img.imgv.length = 3 * (img.w * img.h).toNat →
        o.written = some (img.w, img.h, 3, img.imgv)) := by
  have hrun : engine_loop W.kernels (select_mode argv) 0 fuel
      (initial_state W (select_mode argv) img)
      = some (initial_state W (select_mode argv) img) := by
    have h := engine_loop_iterate W.kernels (select_mode argv) 0 0 fuel
      (initial_state W (select_mode argv) img) (Nat.zero_le _)
      (by rw [initial_state_num_iterations]; decide)
    simpa using h
  have hwritten : (finish W (initial_state W (select_mode argv) img)).written
      = some (img.w, img.h, 3,
          W.flatten_pixels (W.build_pixels img.imgv img.w img.h) img.w img.h img.w) := by
    simp only [finish, host_pixels, initial_state_d_pixels, initial_state_w, initial_state_h,
      initial_state_current_w, if_true]
  refine ⟨finish W (initial_state W (select_mode argv) img),
    initial_state W (select_mode argv) img, ?_, rfl, rfl, rfl,
    initial_state_num_iterations _ _ _, initial_state_current_w _ _ _,
    initial_state_d_pixels _ _ _, initial_state_d_pixels_swap _ _ _, ?_, hwritten, ?_⟩
  · rw [main_accepted W fuel argv 0 img hargc hstr hload hc (le_refl 0) hw]
    unfold resize
    rw [hrun]
    rfl
  · simp only [finish, initial_state_trace, initial_state_w, initial_state_h,
      initial_state_current_w, List.cons_append]
  · intro hb hf hh hlen
    rw [hwritten, hb, hf, flatten_build img.imgv img.w img.h (le_of_lt hw) hh hlen]

/-- Witness of C6: the 2x1 image, no seam, update mode, helpers as modelled. -/
theorem zero_seams_identity_witness :
    ∃ o sf, main (codec_world 0 (tiny_image 3)) 0 ["seam", "in.bmp", "0", "-u"] = some o ∧
      o.ret = 0 ∧ o.final = some sf ∧
      o.trace = [Call.build_pixels 2 1, Call.compute_costs 2 2 1,
        Call.flatten_pixels 2 1 2, Call.stbi_write_bmp 2 1 3] ∧
      o.written = some (2, 1, 3, [1, 2, 3, 4, 5, 6]) := by
  obtain ⟨o, sf, hmain, hret, hfinal, _, _, _, _, _, htrace, _, hid⟩ :=
    zero_seams_identity (codec_world 0 (tiny_image 3)) 0 ["seam", "in.bmp", "0", "-u"]
      (tiny_image 3) (by decide) rfl rfl rfl (by decide)
  exact ⟨o, sf, hmain, hret, hfinal, htrace, hid rfl rfl (by decide) (by decide)⟩

theorem min_pair_cases (row : List Int) (a b : Int) :
    (min_pair row a b = a ∧
      (row_value row a < row_value row b ∨ (row_value row a = row_value row b ∧ a ≤ b))) ∨
    (min_pair row a b = b ∧
      (row_value row b < row_value row a ∨ (row_value row b = row_value row a ∧ b < a))) := by
  unfold min_pair
  split_ifs <;> omega

theorem min_pair_assoc (row : List Int) (a b c : Int) :
    min_pair row (min_pair row a b) c = min_pair row a (min_pair row b c) := by
  rcases min_pair_cases row a b with ⟨h1, c1⟩ | ⟨h1, c1⟩ <;>
  rcases min_pair_cases row b c with ⟨h2, c2⟩ | ⟨h2, c2⟩ <;>
  rcases min_pair_cases row a c with ⟨h3, c3⟩ | ⟨h3, c3⟩ <;>
  rw [h1, h2] <;> (try rw [h1]) <;> (try rw [h3]) <;> omega

/-- A level of the tree does not change the result of folding the comparison
over the candidates. -/
theorem foldl_reduce_level (row : List Int) :
    ∀ (k : Nat) (l : List Int) (x : Int), l.length ≤ k →
      (reduce_level row l).foldl (min_pair row) x = l.foldl (min_pair row) x := by
  intro k
  induction k using Nat.strong_induction_on with
  | _ k ih =>
    intro l x hl
    match l with
    | [] => rfl
    | [a] => rfl
    | a :: b :: rest =>
      simp only [reduce_level, List.foldl_cons]
      rw [min_pair_assoc]
      have hr : rest.length ≤ k - 2 := by simp at hl; omega
      exact ih (k - 2) (by simp at hl; omega) rest _ hr

theorem reduce_level_length (row : List Int) :
    ∀ (k : Nat) (l : List Int), l.length ≤ k → (reduce_level row l).length ≤ l.length := by
  intro k
  induction k using Nat.strong_induction_on with
  | _ k ih =>
    intro l hl
    match l with
    | [] => simp [reduce_level]
    | [a] => simp [reduce_level]
    | a :: b :: rest =>
      simp only [reduce_level, List.length_cons]
      have := ih (k - 2) (by simp at hl; omega) rest (by simp at hl; omega)
      omega

/-- Allowed as many levels as there are further candidates, the tree ends
with the single candidate that the left fold of the comparison selects. -/
theorem reduce_tree_fold (row : List Int) :
    ∀ (fuel : Nat) (a : Int) (l : List Int), l.length ≤ fuel →
      reduce_tree row fuel (a :: l) = [l.foldl (min_pair row) a] := by
  intro fuel
  induction fuel with
  | zero =>
    intro a l hl
    have : l = [] := List.length_eq_zero.mp (by omega)
    subst this
    rfl
  | succ fuel ih =>
    intro a l hl
    match l with
    | [] => simp [reduce_tree]
    | b :: rest =>
      have hlen := reduce_level_length row rest.length rest (le_refl _)
      simp only [reduce_tree, List.length_cons, reduce_level]
      rw [if_neg (by omega), ih _ _ (by simp at hl; omega),
        foldl_reduce_level row rest.length rest _ (le_refl _)]
      rfl

/-- Over increasing columns the scan step and the tree comparison agree. -/
theorem scan_eq_fold (row : List Int) :
    ∀ (l : List Nat) (best : Int), (∀ i ∈ l, best ≤ (i : Int)) → l.Pairwise (· < ·) →
      l.foldl (scan_step row) best = (l.map Int.ofNat).foldl (min_pair row) best := by
  intro l
  induction l with
  | nil => intro best _ _; rfl
  | cons i l ih =>
    intro best hb hp
    have hbi : best ≤ (i : Int) := hb i (List.mem_cons_self _ _)
    have hstep : scan_step row best i = min_pair row best (i : Int) := by
      unfold scan_step min_pair
      split_ifs <;> omega
    rw [List.pairwise_cons] at hp
    simp only [List.foldl_cons, List.map_cons]
    have hofNat : Int.ofNat i = (i : Int) := rfl
    rw [hofNat, ← hstep]
    apply ih _ _ hp.2
    intro j hj
    have h1 := hp.1 j hj
    have h2 := hb j (List.mem_cons_of_mem _ hj)
    unfold scan_step
    split_ifs <;> omega

/-- C10: for a row and a width `current_w ≥ 1` (at most the number `w` of
reference indices `0 .. w-1` that `main` sets up), `find_min_index` leaves at
the front of `d_indices` the column that the sequential left-to-right scan
with lowest-index tie-break selects, whatever the values of the row, equal
minima included. -/
theorem find_min_index_linear_scan (row d_indices : List Int) (w current_w : Int)
    (h1 : 1 ≤ current_w) (hw : current_w ≤ w) (hd : d_indices ≠ []) :
    (find_min_index current_w ((List.range w.toNat).map Int.ofNat) d_indices row).head?
      = some (linear_argmin row current_w.toNat) := by
  obtain ⟨n, hn⟩ : ∃ n : Nat, current_w.toNat = n + 1 := ⟨current_w.toNat - 1, by omega⟩
  have htake : ((List.range w.toNat).map Int.ofNat).take current_w.toNat
      = (List.range (n + 1)).map Int.ofNat := by
    rw [← List.map_take, hn]
    congr 1
    rw [List.take_range]
    congr 1
    omega
  have hscan : linear_argmin row (n + 1)
      = ((List.range (n + 1)).map Int.ofNat).foldl (min_pair row) 0 :=
    scan_eq_fold row (List.range (n + 1)) 0 (fun i _ => by omega) (List.pairwise_lt_range _)
  unfold find_min_index
  rw [htake, hn, hscan, List.range_succ_eq_map]
  simp only [List.map_cons, List.foldl_cons]
  rw [reduce_tree_fold row (n + 1) _ _ (by simp)]
  have h00 : min_pair row 0 (Int.ofNat 0) = 0 := by
    unfold min_pair; simp
  rw [h00]
  cases d_indices with
  | nil => exact absurd rfl hd
  | cons d ds => simp

/-- Witness of C10: a row of width 5 whose minimum 2 stands at columns 1, 3
and 4; the reduction and the scan both give column 1. -/
theorem find_min_index_linear_scan_witness :
    (find_min_index 5 ((List.range (5 : Int).toNat).map Int.ofNat) [0] [5, 2, 7, 2, 2]).head?
        = some (linear_argmin [5, 2, 7, 2, 2] (5 : Int).toNat) ∧
    linear_argmin [5, 2, 7, 2, 2] (5 : Int).toNat = 1 :=
  ⟨find_min_index_linear_scan [5, 2, 7, 2, 2] [0] 5 5 (by decide) (by decide) (by decide),
   by decide⟩

/-- C14: the mode is update exactly when there are at least four arguments
and `argv[3]` is "-u", approximate exactly when there are at least four and
`argv[3]` is "-a", and standard in every other case (no option, or an option
that is neither, which is ignored); what follows `argv[3]` has no effect. -/
theorem mode_selection (argv : List String) :
    (select_mode argv = seam_carver_mode.SEAM_CARVER_UPDATE_MODE
      ↔ (4 ≤ argv.length ∧ argv.getD 3 "" = "-u")) ∧
    (select_mode argv = seam_carver_mode.SEAM_CARVER_APPROX_MODE
      ↔ (4 ≤ argv.length ∧ argv.getD 3 "" = "-a")) ∧
    (select_mode argv = seam_carver_mode.SEAM_CARVER_STANDARD_MODE
      ↔ ¬ (4 ≤ argv.length ∧ (argv.getD 3 "" = "-u" ∨ argv.getD 3 "" = "-a"))) ∧
    (∀ extra : List String, 4 ≤ argv.length →
      select_mode (argv ++ extra) = select_mode argv) ∧
    select_mode argv = select_mode (argv.take 4) := by
  have hua : ("-u" : String) ≠ "-a" := by decide
  have key : ∀ (len : Nat) (o : String),
      ((if len ≥ 4 then
          if o = "-u" then seam_carver_mode.SEAM_CARVER_UPDATE_MODE
          else if o = "-a" then seam_carver_mode.SEAM_CARVER_APPROX_MODE
          else seam_carver_mode.SEAM_CARVER_STANDARD_MODE
        else seam_carver_mode.SEAM_CARVER_STANDARD_MODE)
          = seam_carver_mode.SEAM_CARVER_UPDATE_MODE ↔ (4 ≤ len ∧ o = "-u")) ∧
      ((if len ≥ 4 then
          if o = "-u" then seam_carver_mode.SEAM_CARVER_UPDATE_MODE
          else if o = "-a" then seam_carver_mode.SEAM_CARVER_APPROX_MODE
          else seam_carver_mode.SEAM_CARVER_STANDARD_MODE
        else seam_carver_mode.SEAM_CARVER_STANDARD_MODE)
          = seam_carver_mode.SEAM_CARVER_APPROX_MODE ↔ (4 ≤ len ∧ o = "-a")) ∧
      ((if len ≥ 4 then
          if o = "-u" then seam_carver_mode.SEAM_CARVER_UPDATE_MODE
          else if o = "-a" then seam_carver_mode.SEAM_CARVER_APPROX_MODE
          else seam_carver_mode.SEAM_CARVER_STANDARD_MODE
        else seam_carver_mode.SEAM_CARVER_STANDARD_MODE)
          = seam_carver_mode.SEAM_CARVER_STANDARD_MODE
        ↔ ¬ (4 ≤ len ∧ (o = "-u" ∨ o = "-a"))) := by
    intro len o
    by_cases h4 : len ≥ 4
    · by_cases hu : o = "-u"
      · subst hu
        simp [h4, hua]
      · by_cases ha : o = "-a"
        · subst ha
          simp [h4, hu]
        · simp [h4, hu, ha]
    · simp [h4]
  refine ⟨(key _ _).1, (key _ _).2.1, (key _ _).2.2, ?_, ?_⟩
  · intro extra h4
    have hget : (argv ++ extra).getD 3 "" = argv.getD 3 "" := by
      rw [List.getD_eq_getElem?_getD, List.getD_eq_getElem?_getD,
        List.getElem?_append_left (by omega)]
    unfold select_mode
    rw [hget]
    have hlen : (argv ++ extra).length ≥ 4 := by
      rw [List.length_append]; omega
    rw [if_pos hlen, if_pos h4]
  · have hget : (argv.take 4).getD 3 "" = argv.getD 3 "" := by
      rw [List.getD_eq_getElem?_getD, List.getD_eq_getElem?_getD, List.getElem?_take]
      simp
    unfold select_mode
    rw [hget, List.length_take]
    by_cases h4 : argv.length ≥ 4
    · have h4t : min 4 argv.length ≥ 4 := by omega
      rw [if_pos h4, if_pos h4t]
    · have h4t : ¬ min 4 argv.length ≥ 4 := by omega
      rw [if_neg h4, if_neg h4t]

/-- The widths at which the cycles of a run call `remove_seam`. -/
theorem repeat_cycle_remove_width (mode : seam_carver_mode) (w h : Int) :
    ∀ (k : Nat) (current_w : Int),
      ∀ c ∈ repeat_cycle mode w h k current_w, ∀ cw : Int, remove_seam_width c = some cw →
        current_w - (k : Int) < cw ∧ cw ≤ current_w := by
  intro k
  induction k with
  | zero => intro current_w c hc; simp [repeat_cycle] at hc
  | succ k ih =>
    intro current_w c hc cw hcw
    simp only [repeat_cycle, List.mem_append] at hc
    rcases hc with hc | hc
    · cases mode <;>
        simp only [cycle_calls, List.mem_cons, List.mem_singleton, List.not_mem_nil,
          or_false] at hc <;>
        rcases hc with rfl | rfl | rfl | rfl | rfl <;>
        simp only [remove_seam_width, Option.some.injEq, reduceCtorEq] at hcw <;>
        (push_cast; omega)
    · have := ih _ c hc cw hcw
      push_cast
      omega

/-- Allowed fewer iterations than the count still to go, the loop does not
come to its end. -/
theorem engine_loop_short (K : Kernels) (mode : seam_carver_mode) (n : Int) :
    ∀ (fuel : Nat) (s : State), fuel < (long_to_int n - s.num_iterations).toNat →
      engine_loop K mode n fuel s = none := by
  intro fuel
  induction fuel with
  | zero =>
    intro s hs
    have hc : loop_cond n s = true := by
      simp only [loop_cond, decide_eq_true_eq]
      omega
    unfold engine_loop
    simp [hc]
  | succ fuel ih =>
    intro s hs
    have hc : loop_cond n s = true := by
      simp only [loop_cond, decide_eq_true_eq]
      omega
    unfold engine_loop
    simp only [hc, if_true]
    apply ih
    rw [loop_body_num_iterations]
    omega

/-- At every loop head the current width is the loaded width less the number
of iterations done. -/
theorem loop_head_width (W : World) (mode : seam_carver_mode) (n : Int) (img : Image)
    (s : State) (hs : LoopHead W.kernels mode n (initial_state W mode img) s) :
    s.current_w = img.w - s.num_iterations := by
  induction hs with
  | entry => rw [initial_state_current_w, initial_state_num_iterations]; omega
  | next s _ _ ih => rw [loop_body_current_w, loop_body_num_iterations]; omega

/-- C19: for an accepted seam count `n` (`0 ≤ n < w`) the width is at least 2
at every loop head where the loop goes on, every `remove_seam` call of the run
is made at a width of at least 2, the width at the end is `w - n ≥ 1`, and
for `n = w - 1` the run completes with width exactly 1. -/
theorem width_stays_positive (W : World) (fuel : Nat) (argv : List String) (n : Int)
    (img : Image) (hargc : 3 ≤ argv.length) (hstr : W.strtol (argv.getD 2 "") = some n)
    (hload : W.stbi_load (argv.getD 1 "") = some img) (hc : img.ncomp = 3)
    (hw : img.w ≤ INT_MAX) (h0 : 0 ≤ n) (hn : n < img.w) (hfuel : n.toNat ≤ fuel) :
    (∀ s : State,
      LoopHead W.kernels (select_mode argv) n (initial_state W (select_mode argv) img) s →
      loop_cond n s = true → 2 ≤ s.current_w) ∧
    (∃ o sf, main W fuel argv = some o ∧ o.ret = 0 ∧ o.final = some sf ∧
      sf.current_w = img.w - n ∧ 1 ≤ sf.current_w ∧
      (∀ c ∈ o.trace, ∀ cw : Int, remove_seam_width c = some cw → 2 ≤ cw) ∧
      (n = img.w - 1 → sf.current_w = 1 ∧ written_dims o = some (1, img.h, 3))) := by
  have hid : long_to_int n = n := long_to_int_id n (by omega) (by omega)
  refine ⟨?_, ?_⟩
  · intro s hs hcond
    have hwid := loop_head_width W _ n img s hs
    simp only [loop_cond, decide_eq_true_eq] at hcond
    omega
  · rw [main_accepted W fuel argv n img hargc hstr hload hc h0 hn]
    obtain ⟨o, sf, hrun, hret, hfinal, hnum, htrace⟩ :=
      resize_trace W (select_mode argv) fuel n img hw h0 hn hfuel
    have hrun2 := resize_accepted W (select_mode argv) fuel n img hw h0 hn hfuel
    rw [hrun2] at hrun
    simp only [Option.some.injEq] at hrun
    have hsf : sf = Nat.iterate (loop_body W.kernels (select_mode argv)) n.toNat
        (initial_state W (select_mode argv) img) := by
      rw [← hrun] at hfinal
      simpa [finish] using hfinal.symm
    have hcw : sf.current_w = img.w - n := by
      rw [hsf, iterate_current_w, initial_state_current_w, Int.toNat_of_nonneg h0]
    refine ⟨o, sf, hrun2.trans (congrArg some hrun), hret, hfinal, hcw, by omega, ?_, ?_⟩
    · intro c hc cw hcw
      rw [htrace] at hc
      simp only [List.mem_cons, List.mem_append, List.not_mem_nil, or_false] at hc
      rcases hc with rfl | hc | hc | rfl | rfl
      · simp [remove_seam_width] at hcw
      · split_ifs at hc
        · simp only [List.mem_singleton] at hc
          subst hc
          simp [remove_seam_width] at hcw
        · simp at hc
      · have hb := repeat_cycle_remove_width _ _ _ _ _ c hc cw hcw
        rw [Int.toNat_of_nonneg h0] at hb
        omega
      · simp [remove_seam_width] at hcw
      · simp [remove_seam_width] at hcw
    · intro hlast
      refine ⟨by omega, ?_⟩
      rw [← hrun]
      simp only [written_dims, finish, Option.map_some']
      rw [← hsf, hcw, hsf, iterate_h, initial_state_h]
      have h1 : img.w - n = 1 := by omega
      rw [h1]

/-- Witness of C19: two seams of a 3x1 image, the largest accepted count. -/
theorem width_stays_positive_witness :
    ∃ o sf, main (demo_world 2 wide_image) 2 ["seam", "in.bmp", "2"] = some o ∧
      o.ret = 0 ∧ o.final = some sf ∧
      sf.current_w = wide_image.w - 2 ∧ 1 ≤ sf.current_w ∧
      (∀ c ∈ o.trace, ∀ cw : Int, remove_seam_width c = some cw → 2 ≤ cw) ∧
      ((2 : Int) = wide_image.w - 1 →
        sf.current_w = 1 ∧ written_dims o = some (1, wide_image.h, 3)) :=
  (width_stays_positive (demo_world 2 wide_image) 2 ["seam", "in.bmp", "2"] 2 wide_image
    (by decide) rfl rfl rfl (by decide) (by decide) (by decide) (by decide)).2

/-- C20: for an accepted seam count `n` the conversion `(int)seams_to_remove`
keeps the value, and the loop ends after exactly `n` iterations: allowed `n`
or more it stops in the state reached by `n` runs of the body, allowed fewer
it has not stopped; after `k ≤ n` iterations `num_iterations` is `k`, and the
loop condition holds there exactly when `k < n`. -/
theorem loop_runs_exactly_n (W : World) (argv : List String) (n : Int)
    (img : Image) (hargc : 3 ≤ argv.length) (hstr : W.strtol (argv.getD 2 "") = some n)
    (hload : W.stbi_load (argv.getD 1 "") = some img) (hc : img.ncomp = 3)
    (hw : img.w ≤ INT_MAX) (h0 : 0 ≤ n) (hn : n < img.w) :
    long_to_int n = n ∧
    (∀ fuel : Nat,
      engine_loop W.kernels (select_mode argv) n fuel (initial_state W (select_mode argv) img)
        = if n.toNat ≤ fuel
          then some (Nat.iterate (loop_body W.kernels (select_mode argv)) n.toNat
            (initial_state W (select_mode argv) img))
          else none) ∧
    (∀ k : Nat, k ≤ n.toNat →
      (Nat.iterate (loop_body W.kernels (select_mode argv)) k
        (initial_state W (select_mode argv) img)).num_iterations = (k : Int) ∧
      (loop_cond n (Nat.iterate (loop_body W.kernels (select_mode argv)) k
        (initial_state W (select_mode argv) img)) = true ↔ k < n.toNat)) ∧
    (∀ fuel : Nat, n.toNat ≤ fuel →
      ∃ o sf, main W fuel argv = some o ∧ o.ret = 0 ∧ o.final = some sf ∧
        sf.num_iterations = n) := by
  have hid : long_to_int n = n := long_to_int_id n (by omega) (by omega)
  refine ⟨hid, ?_, ?_, ?_⟩
  · intro fuel
    by_cases hf : n.toNat ≤ fuel
    · rw [if_pos hf]
      exact engine_loop_iterate _ _ n n.toNat fuel _ hf
        (by rw [initial_state_num_iterations, hid]; simp)
    · rw [if_neg hf]
      exact engine_loop_short _ _ n fuel _
        (by rw [initial_state_num_iterations, hid]; simp; omega)
  · intro k hk
    have hnum := iterate_num_iterations W.kernels (select_mode argv) k
      (initial_state W (select_mode argv) img)
    rw [initial_state_num_iterations] at hnum
    refine ⟨by rw [hnum]; omega, ?_⟩
    simp only [loop_cond, decide_eq_true_eq, hnum, hid]
    omega
  · intro fuel hfuel
    rw [main_accepted W fuel argv n img hargc hstr hload hc h0 hn]
    obtain ⟨o, sf, hrun, hret, hfinal, hnum, _⟩ :=
      resize_trace W (select_mode argv) fuel n img hw h0 hn hfuel
    exact ⟨o, sf, hrun, hret, hfinal, hnum⟩

/-- Witness of C20: two seams of a 3x1 image, the loop allowed two iterations. -/
theorem loop_runs_exactly_n_witness :
    ∃ o sf, main (demo_world 2 wide_image) 2 ["seam", "in.bmp", "2"] = some o ∧
      o.ret = 0 ∧ o.final = some sf ∧ sf.num_iterations = 2 :=
  (loop_runs_exactly_n (demo_world 2 wide_image) ["seam", "in.bmp", "2"] 2 wide_image
    (by decide) rfl rfl rfl (by decide) (by decide) (by decide)).2.2.2 2 (by decide)

/-- Witness of C14: five arguments, the fourth one "-u". -/
theorem mode_selection_witness :
    select_mode ["seam", "in.bmp", "1", "-u", "-a"]
        = seam_carver_mode.SEAM_CARVER_UPDATE_MODE ∧
    select_mode ["seam", "in.bmp", "1", "-u", "-a"]
        = select_mode (["seam", "in.bmp", "1", "-u", "-a"].take 4) :=
  ⟨(mode_selection ["seam", "in.bmp", "1", "-u", "-a"]).1.mpr ⟨by decide, by decide⟩,
   (mode_selection ["seam", "in.bmp", "1", "-u", "-a"]).2.2.2.2⟩

theorem grid_index_lt (W H r c : Nat) (hr : r < H) (hc : c < W) : r * W + c < W * H := by
  have h1 : (r + 1) * W ≤ H * W := Nat.mul_le_mul_right W hr
  rw [Nat.add_mul, Nat.one_mul] at h1
  rw [Nat.mul_comm W H]
  omega

theorem grid_index_div (W r c : Nat) (hc : c < W) : (r * W + c) / W = r := by
  rw [Nat.mul_comm r W, Nat.mul_add_div (by omega), Nat.div_eq_of_lt hc, Nat.add_zero]

theorem grid_index_mod (W r c : Nat) (hc : c < W) : (r * W + c) % W = c := by
  rw [Nat.mul_comm r W, Nat.mul_add_mod, Nat.mod_eq_of_lt hc]

/-- C12: for a grid of width `current_w ≥ 2` (rows `w ≥ current_w` apart,
`h` rows) and a seam with a column in `[0, current_w)` for every row,
`remove_seam` writes rows of `current_w - 1` pixels, and row `r` of what it
writes is row `r` of the input with the pixel at the seam's column erased:
the pixels before it keep their column, those after it move one to the left. -/
theorem remove_seam_rows (current_w w h : Int) (d_M : List Int)
    (d_pixels d_pixels_swap : List uchar4) (d_seam : List Int)
    (hcw : 2 ≤ current_w) (hcww : current_w ≤ w) (hh : 0 ≤ h)
    (hin : d_pixels.length = (w * h).toNat) (hout : d_pixels_swap.length = (w * h).toNat)
    (hseam : ∀ r : Nat, r < h.toNat → 0 ≤ d_seam.getD r 0 ∧ d_seam.getD r 0 < current_w)
    (r : Nat) (hr : r < h.toNat) :
    grid_row (remove_seam current_w w h d_M d_pixels d_pixels_swap d_seam) w r (current_w - 1)
      = (grid_row d_pixels w r current_w).eraseIdx (d_seam.getD r 0).toNat ∧
    (grid_row (remove_seam current_w w h d_M d_pixels d_pixels_swap d_seam) w r
      (current_w - 1)).length = (current_w - 1).toNat := by
  obtain ⟨hs0, hs1⟩ := hseam r hr
  lift current_w to ℕ using (by omega)
  lift w to ℕ using (by omega)
  lift h to ℕ using hh
  have hN : ((w : Int) * (h : Int)).toNat = w * h := by
    rw [← Nat.cast_mul, Int.toNat_natCast]
  rw [hN] at hin hout
  simp only [Int.toNat_natCast] at hr
  have hcw1 : ((current_w : Int) - 1).toNat = current_w - 1 := by omega
  have hcwn : 2 ≤ current_w := by omega
  have hcwwn : current_w ≤ w := by omega
  have hrows : grid_row (remove_seam current_w w h d_M d_pixels d_pixels_swap d_seam) w r
      ((current_w : Int) - 1)
      = (grid_row d_pixels w r current_w).eraseIdx (d_seam.getD r 0).toNat := by
    apply List.ext_getElem?
    intro c
    unfold grid_row remove_seam
    simp only [Int.toNat_natCast, hcw1]
    rw [List.getElem?_take, List.getElem?_drop, List.getElem?_eraseIdx, List.getElem?_take,
      List.getElem?_take, List.getElem?_drop, List.getElem?_drop, List.getElem?_map]
    by_cases hc : c < current_w - 1
    · have hcW : c < w := by omega
      have hix : r * w + c < w * h := grid_index_lt w h r c hr hcW
      have hix1 : r * w + (c + 1) < w * h := grid_index_lt w h r (c + 1) hr (by omega)
      rw [if_pos hc, List.getElem?_range (by omega), Option.map_some']
      simp only [grid_index_div w r c hcW, grid_index_mod w r c hcW]
      have hcond : r < h ∧ ((c : Nat) : Int) < (current_w : Int) - 1 := ⟨hr, by omega⟩
      rw [if_pos hcond]
      by_cases hcs : (c : Int) < d_seam.getD r 0
      · rw [if_pos hcs, if_pos (by omega), if_pos (by omega),
          List.getD_eq_getElem _ _ (by omega), List.getElem?_eq_getElem (by omega)]
      · rw [if_neg hcs, if_neg (by omega), if_pos (by omega),
          List.getD_eq_getElem _ _ (by omega), List.getElem?_eq_getElem (by omega)]
        rfl
    · rw [if_neg hc, if_neg (by omega), if_neg (by omega)]
  refine ⟨hrows, ?_⟩
  rw [hrows, List.length_eraseIdx]
  have hlen : (grid_row d_pixels (w : Int) r (current_w : Int)).length = current_w := by
    unfold grid_row
    simp only [Int.toNat_natCast, List.length_take, List.length_drop]
    have hix : r * w + (current_w - 1) < w * h := grid_index_lt w h r _ hr (by omega)
    omega
  rw [hlen, if_pos (by omega), hcw1]

/-- Witness of C12: a 3x2 grid and the seam with column 1 in row 0 and
column 0 in row 1. -/
theorem remove_seam_rows_witness :
    grid_row (remove_seam 3 3 2 [] [px 1, px 2, px 3, px 4, px 5, px 6]
        [px 0, px 0, px 0, px 0, px 0, px 0] [1, 0]) 3 1 (3 - 1)
      = (grid_row [px 1, px 2, px 3, px 4, px 5, px 6] 3 1 3).eraseIdx
          (([1, 0] : List Int).getD 1 0).toNat ∧
    (grid_row (remove_seam 3 3 2 [] [px 1, px 2, px 3, px 4, px 5, px 6]
        [px 0, px 0, px 0, px 0, px 0, px 0] [1, 0]) 3 1 (3 - 1)).length = (3 - 1 : Int).toNat :=
  remove_seam_rows 3 3 2 [] [px 1, px 2, px 3, px 4, px 5, px 6]
    [px 0, px 0, px 0, px 0, px 0, px 0] [1, 0] (by decide) (by decide) (by decide)
    (by decide) (by decide) (by decide) 1 (by decide)

/-- The body of the loop exchanges the two pixel buffers: the grid written by
`remove_seam` becomes `d_pixels`, the grid that was read becomes
`d_pixels_swap`, and the binding to the host array travels with the buffer. -/
theorem loop_body_pixels (K : Kernels) (mode : seam_carver_mode) (s : State) :
    (loop_body K mode s).dev.d_pixels.host = s.dev.d_pixels_swap.host ∧
    (loop_body K mode s).dev.d_pixels_swap.host = s.dev.d_pixels.host ∧
    (loop_body K mode s).dev.d_pixels_swap.data = s.dev.d_pixels.data := by
  cases mode <;>
    simp [loop_body, removal_steps, seam_steps, swap_pixels, swap_costs, call_compute_costs,
      call_compute_M, call_find_min_index, call_find_seam, call_approx_setup, call_approx_M,
      call_approx_seam, call_remove_seam, call_update_costs]

/-- After `k` iterations the buffer bound to the host array is `d_pixels` when
`k` is even and `d_pixels_swap` when `k` is odd. -/
theorem iterate_host (W : World) (mode : seam_carver_mode) (img : Image) :
    ∀ k : Nat,
      (Nat.iterate (loop_body W.kernels mode) k (initial_state W mode img)).dev.d_pixels.host
        = decide (k % 2 = 0) ∧
      (Nat.iterate (loop_body W.kernels mode) k
        (initial_state W mode img)).dev.d_pixels_swap.host = decide (k % 2 = 1) := by
  intro k
  induction k with
  | zero =>
    rw [Function.iterate_zero, id, initial_state_d_pixels, initial_state_d_pixels_swap]
    exact ⟨rfl, rfl⟩
  | succ k ih =>
    rw [Function.iterate_succ_apply']
    obtain ⟨h1, h2, _⟩ := loop_body_pixels W.kernels mode
      (Nat.iterate (loop_body W.kernels mode) k (initial_state W mode img))
    rw [h1, h2, ih.1, ih.2]
    constructor
    · rcases Nat.mod_two_eq_zero_or_one k with h | h <;> simp [h, Nat.succ_mod_two_eq_zero_iff,
        Nat.succ_mod_two_eq_one_iff]
    · rcases Nat.mod_two_eq_zero_or_one k with h | h <;> simp [h, Nat.succ_mod_two_eq_zero_iff,
        Nat.succ_mod_two_eq_one_iff]

/-- After an odd number of iterations the host array receives the contents of
`d_pixels_swap`, the grid that the last `remove_seam` read, not the one it
wrote. -/
theorem host_pixels_odd (W : World) (mode : seam_carver_mode) (img : Image) (k : Nat) :
    host_pixels (Nat.iterate (loop_body W.kernels mode) (2 * k + 1)
        (initial_state W mode img)).dev
      = (Nat.iterate (loop_body W.kernels mode) (2 * k)
          (initial_state W mode img)).dev.d_pixels.data := by
  unfold host_pixels
  rw [(iterate_host W mode img (2 * k + 1)).1, if_neg (by simp; omega),
    Function.iterate_succ_apply']
  exact (loop_body_pixels W.kernels mode _).2.2

/-- C17, evaluated: on the 3x1 image with pixels (1,2,3), (4,5,6), (7,8,9)
and the seam at column 0, the one-seam run leaves in `d_pixels` the grid that
`remove_seam` wrote, beginning (4,5,6), (7,8,9), but hands the encoder the
bytes 1..6 of the first two input pixels; the two-seam run hands over the
grid of its last removal, (7,8,9). -/
theorem one_seam_output_is_stale :
    (main (carving_world 1 wide_image) 1 ["seam", "in.bmp", "1"]).map Outcome.written
      = some (some (2, 1, 3, [1, 2, 3, 4, 5, 6])) ∧
    (main (carving_world 1 wide_image) 1 ["seam", "in.bmp", "1"]).map
        (fun o => o.final.map (fun sf => flatten_pixels sf.dev.d_pixels.data 3 1 2))
      = some (some [4, 5, 6, 7, 8, 9]) ∧
    (main (carving_world 2 wide_image) 2 ["seam", "in.bmp", "2"]).map Outcome.written
      = some (some (1, 1, 3, [7, 8, 9])) := by
  refine ⟨by decide, by decide, by decide⟩

theorem M_rows_length (boundary : Nat → Int) (current_w w : Int)
    (l u r : List Int) (row : Nat) :
    (M_rows boundary current_w w l u r row).length = current_w.toNat := by
  cases row <;> simp [M_rows, M_next]

/-- An entry of a row past the boundary is at most every candidate. -/
theorem M_next_le (current_w w : Int) (l u r : List Int) (row : Nat) (prev : List Int)
    (col pred : Nat) (hcol : col < current_w.toNat) (hpred : pred < current_w.toNat)
    (hadj : pred + 1 = col ∨ pred = col ∨ pred = col + 1) :
    (M_next current_w w l u r row prev).getD col 0
      ≤ prev.getD pred 0 + enter_cost w l u r row col pred := by
  unfold M_next
  rw [List.getD_eq_getElem _ _ (by simpa using hcol)]
  simp only [List.getElem_map, List.getElem_range]
  unfold enter_cost
  rcases hadj with h | h | h
  · subst h
    simp only [Nat.add_sub_cancel, if_true]
    split_ifs <;> omega
  · subst h
    have h1 : ¬ (pred + 1 = pred) := by omega
    simp only [h1, if_false, if_true]
    split_ifs <;> omega
  · subst h
    have h1 : ¬ (col + 1 + 1 = col) := by omega
    have h2 : ¬ (col + 1 = col) := by omega
    simp only [h1, h2, if_false]
    split_ifs <;> omega

/-- An entry of a row past the boundary is the value of one candidate. -/
theorem M_next_attained (current_w w : Int) (l u r : List Int) (row : Nat) (prev : List Int)
    (col : Nat) (hcol : col < current_w.toNat) :
    ∃ pred : Nat, pred < current_w.toNat ∧
      (pred + 1 = col ∨ pred = col ∨ pred = col + 1) ∧
      (M_next current_w w l u r row prev).getD col 0
        = prev.getD pred 0 + enter_cost w l u r row col pred := by
  unfold M_next
  rw [List.getD_eq_getElem _ _ (by simpa using hcol)]
  simp only [List.getElem_map, List.getElem_range]
  by_cases hr : col + 1 < current_w.toNat ∧
      prev.getD (col + 1) 0 + cell r w row col
        < (if 0 < col ∧ prev.getD (col - 1) 0 + cell l w row col
              < prev.getD col 0 + cell u w row col
            then prev.getD (col - 1) 0 + cell l w row col
            else prev.getD col 0 + cell u w row col)
  · refine ⟨col + 1, hr.1, Or.inr (Or.inr rfl), ?_⟩
    rw [if_pos hr]
    unfold enter_cost
    have h1 : ¬ (col + 1 + 1 = col) := by omega
    have h2 : ¬ (col + 1 = col) := by omega
    simp only [h1, h2, if_false]
  · rw [if_neg hr]
    by_cases hl : 0 < col ∧ prev.getD (col - 1) 0 + cell l w row col
        < prev.getD col 0 + cell u w row col
    · refine ⟨col - 1, by omega, Or.inl (by omega), ?_⟩
      rw [if_pos hl]
      unfold enter_cost
      have h1 : col - 1 + 1 = col := by omega
      simp only [h1, if_true]
    · refine ⟨col, hcol, Or.inr (Or.inl rfl), ?_⟩
      rw [if_neg hl]
      unfold enter_cost
      have h1 : ¬ (col + 1 = col) := by omega
      simp only [h1, if_false, if_true]

theorem valid_path_head (current_w col : Nat) (rest : List Nat)
    (hv : valid_path current_w (col :: rest)) : col < current_w := by
  cases rest with
  | nil => exact hv
  | cons pred rest => exact hv.1

/-- No valid seam-prefix ending at `(row, col)` costs less than the entry of
the table there. -/
theorem M_rows_le (boundary : Nat → Int) (current_w w : Int) (l u r : List Int) :
    ∀ (row col : Nat) (rest : List Nat), rest.length = row →
      valid_path current_w.toNat (col :: rest) →
      (M_rows boundary current_w w l u r row).getD col 0
        ≤ path_cost boundary w l u r (col :: rest) := by
  intro row
  induction row with
  | zero =>
    intro col rest hlen hv
    have hnil : rest = [] := List.length_eq_zero.mp hlen
    subst hnil
    have hcol : col < current_w.toNat := hv
    simp only [M_rows, path_cost]
    rw [List.getD_eq_getElem _ _ (by simpa using hcol)]
    simp
  | succ row ih =>
    intro col rest hlen hv
    match rest, hlen, hv with
    | pred :: rest', hlen, hv =>
      have hlen' : rest'.length = row := by simpa using hlen
      obtain ⟨hcol, hadj, hv'⟩ := hv
      have hpred := valid_path_head _ _ _ hv'
      have h1 := M_next_le current_w w l u r (row + 1)
        (M_rows boundary current_w w l u r row) col pred hcol hpred hadj
      have h2 := ih pred rest' hlen' hv'
      simp only [M_rows, path_cost, hlen']
      omega

/-- Some valid seam-prefix ending at `(row, col)` costs exactly the entry of
the table there. -/
theorem M_rows_attained (boundary : Nat → Int) (current_w w : Int) (l u r : List Int) :
    ∀ (row col : Nat), col < current_w.toNat →
      ∃ rest : List Nat, rest.length = row ∧ valid_path current_w.toNat (col :: rest) ∧
        path_cost boundary w l u r (col :: rest)
          = (M_rows boundary current_w w l u r row).getD col 0 := by
  intro row
  induction row with
  | zero =>
    intro col hcol
    refine ⟨[], rfl, hcol, ?_⟩
    simp only [M_rows, path_cost]
    rw [List.getD_eq_getElem _ _ (by simpa using hcol)]
    simp
  | succ row ih =>
    intro col hcol
    obtain ⟨pred, hpred, hadj, hval⟩ := M_next_attained current_w w l u r (row + 1)
      (M_rows boundary current_w w l u r row) col hcol
    obtain ⟨rest, hlen, hv, hcost⟩ := ih pred hpred
    refine ⟨pred :: rest, by simp [hlen], ⟨hcol, hadj, hv⟩, ?_⟩
    simp only [M_rows, path_cost, hlen]
    rw [hval, hcost]

/-- The entry of the buffer that `compute_M` fills at `(row, col)` is the
entry of row `row` of the table at `col`. -/
theorem compute_M_cell (boundary : Nat → Int) (current_w w h : Int) (d_M l u r : List Int)
    (hcww : current_w ≤ w) (hlen : d_M.length = (w * h).toNat)
    (row col : Nat) (hrow : row < h.toNat) (hcol : col < current_w.toNat) :
    cell (compute_M boundary current_w w h d_M l u r) w row col
      = (M_rows boundary current_w w l u r row).getD col 0 := by
  have hcolw : col < w.toNat := by omega
  have hw : 0 ≤ w := by omega
  have hh : 0 ≤ h := by omega
  have hN : (w * h).toNat = w.toNat * h.toNat := by
    lift w to ℕ using hw
    lift h to ℕ using hh
    rw [← Nat.cast_mul, Int.toNat_natCast, Int.toNat_natCast, Int.toNat_natCast]
  have hix : row * w.toNat + col < d_M.length := by
    rw [hlen, hN]
    exact grid_index_lt _ _ _ _ hrow hcolw
  unfold cell compute_M
  rw [List.getD_eq_getElem _ _ (by simpa using hix)]
  simp only [List.getElem_map, List.getElem_range, grid_index_div _ row col hcolw,
    grid_index_mod _ row col hcolw]
  rw [if_pos ⟨hrow, hcol⟩]

/-- C13: for every cost field, every row `row < h` and column
`col < current_w`, the entry `M[row][col]` that `compute_M` produces is the
minimum of the accumulated directional cost over the valid seam-prefixes from
the boundary row to `(row, col)`: no such prefix costs less, and one of them
costs exactly `M[row][col]`. -/
theorem compute_M_minimal (boundary : Nat → Int) (current_w w h : Int)
    (d_M d_costs_left d_costs_up d_costs_right : List Int)
    (hcww : current_w ≤ w) (hlen : d_M.length = (w * h).toNat)
    (row col : Nat) (hrow : row < h.toNat) (hcol : col < current_w.toNat) :
    (∀ rest : List Nat, rest.length = row → valid_path current_w.toNat (col :: rest) →
      cell (compute_M boundary current_w w h d_M d_costs_left d_costs_up d_costs_right)
          w row col
        ≤ path_cost boundary w d_costs_left d_costs_up d_costs_right (col :: rest)) ∧
    (∃ rest : List Nat, rest.length = row ∧ valid_path current_w.toNat (col :: rest) ∧
      path_cost boundary w d_costs_left d_costs_up d_costs_right (col :: rest)
        = cell (compute_M boundary current_w w h d_M d_costs_left d_costs_up d_costs_right)
            w row col) := by
  rw [compute_M_cell boundary current_w w h d_M _ _ _ hcww hlen row col hrow hcol]
  exact ⟨fun rest hl hv => M_rows_le boundary current_w w _ _ _ row col rest hl hv,
    M_rows_attained boundary current_w w _ _ _ row col hcol⟩

/-- Witness of C13: a 2x2 cost field whose cheapest way into `(1, 0)` comes
from column 1 of the boundary row, at cost 1. -/
theorem compute_M_minimal_witness :
    (∀ rest : List Nat, rest.length = 1 → valid_path (2 : Int).toNat (0 :: rest) →
      cell (compute_M (fun _ => 0) 2 2 2 [9, 9, 9, 9] [0, 0, 0, 0] [0, 0, 5, 5] [0, 0, 1, 1])
          2 1 0
        ≤ path_cost (fun _ => 0) 2 [0, 0, 0, 0] [0, 0, 5, 5] [0, 0, 1, 1] (0 :: rest)) ∧
    cell (compute_M (fun _ => 0) 2 2 2 [9, 9, 9, 9] [0, 0, 0, 0] [0, 0, 5, 5] [0, 0, 1, 1])
      2 1 0 = 1 :=
  ⟨(compute_M_minimal (fun _ => 0) 2 2 2 [9, 9, 9, 9] [0, 0, 0, 0] [0, 0, 5, 5] [0, 0, 1, 1]
      (by decide) (by decide) 1 0 (by decide) (by decide)).1,
   by decide⟩

end SeamCarving

namespace Launch

/-- A loop over the work-groups with a loop over the local ids inside visits
the global ids `0, 1, ...` in order. -/
theorem nested_foldl {σ : Type} (k : Nat → σ → σ) (B : Nat) :
    ∀ (G : Nat) (v0 : σ),
      (List.range G).foldl
          (fun v g => (List.range B).foldl (fun v l => k (g * B + l) v) v) v0
        = (List.range (G * B)).foldl (fun v i => k i v) v0 := by
  intro G
  induction G with
  | zero => intro v0; simp
  | succ G ih =>
    intro v0
    rw [List.range_succ, List.foldl_append, ih, Nat.succ_mul, List.range_add,
      List.foldl_append, List.foldl_map]
    simp

/-- Guarded writes at the indices `0 .. m-1`, each to its own index: index `k`
holds the new value when it was visited and passed the guard, and its old
value otherwise. -/
theorem foldl_set_lookup {α : Type} (guard : Nat → Bool) (val : Nat → α → α) (d : α)
    (l0 : List α) :
    ∀ (m k : Nat),
      ((List.range m).foldl
          (fun l i => if guard i then l.set i (val i (l.getD i d)) else l) l0)[k]?
        = if k < m ∧ guard k = true then l0[k]?.map (val k) else l0[k]? := by
  intro m
  induction m with
  | zero => intro k; simp
  | succ m ih =>
    intro k
    rw [List.range_succ, List.foldl_append]
    simp only [List.foldl_cons, List.foldl_nil]
    have hlen : ∀ m : Nat, ((List.range m).foldl
        (fun l i => if guard i then l.set i (val i (l.getD i d)) else l) l0).length
          = l0.length := by
      intro m
      induction m with
      | zero => simp
      | succ m ihm =>
        rw [List.range_succ, List.foldl_append]
        simp only [List.foldl_cons, List.foldl_nil]
        split_ifs
        · rw [List.length_set, ihm]
        · exact ihm
    by_cases hg : guard m = true
    · rw [if_pos hg, List.getElem?_set, hlen m]
      by_cases hmk : m = k
      · subst hmk
        rw [if_pos rfl]
        by_cases hml : m < l0.length
        · rw [if_pos hml, if_pos ⟨by omega, hg⟩, List.getD_eq_getElem?_getD, ih m,
            if_neg (by omega), List.getElem?_eq_getElem hml]
          rfl
        · rw [if_neg hml, List.getElem?_eq_none (by omega)]
          simp
      · rw [if_neg hmk, ih k]
        by_cases hk : k < m ∧ guard k = true
        · rw [if_pos hk, if_pos ⟨by omega, hk.2⟩]
        · rw [if_neg hk, if_neg (by
            intro h
            exact hk ⟨by omega, h.2⟩)]
    · rw [if_neg hg, ih k]
      by_cases hk : k < m ∧ guard k = true
      · rw [if_pos hk, if_pos ⟨by omega, hk.2⟩]
      · rw [if_neg hk, if_neg (by
          intro h
          by_cases hmk : k = m
          · subst hmk; exact hg h.2
          · exact hk ⟨by omega, h.2⟩)]

theorem foldl_keep {α β : Type} (L : List β) (a : α) : L.foldl (fun o _ => o) a = a := by
  induction L with
  | nil => rfl
  | cons b L ih => exact ih

/-- Work-items that pass a guard and then write the row of `RJ` values that
belongs to their id: after the items `0 .. M-1` the entry `i * RJ + j` of an
item `i < M` that passed the guard holds the value `val i j`. -/
theorem guarded_rows_lookup {α : Type} (guard : Nat → Bool) (val : Nat → Nat → α)
    (RJ : Nat) (o0 : List α) (M i j : Nat) (hj : j < RJ) (hi : i < M)
    (hg : guard i = true) (hlen : i * RJ + j < o0.length) :
    ((List.range M).foldl
        (fun o gi =>
          if guard gi then (List.range RJ).foldl (fun o j => o.set (gi * RJ + j) (val gi j)) o
          else o) o0)[i * RJ + j]?
      = some (val i j) := by
  have hstep : ∀ (o : List α) (gi : Nat),
      (if guard gi then (List.range RJ).foldl (fun o j => o.set (gi * RJ + j) (val gi j)) o
        else o)
        = (List.range RJ).foldl
            (fun o j =>
              (fun ix (o : List α) =>
                if guard (ix / RJ) then o.set ix ((fun ix _ => val (ix / RJ) (ix % RJ)) ix
                  (o.getD ix (val 0 0))) else o) (gi * RJ + j) o) o := by
    intro o gi
    by_cases hgi : guard gi = true
    · rw [if_pos hgi]
      apply List.foldl_ext
      intro o j hjm
      rw [List.mem_range] at hjm
      simp only [SeamCarving.grid_index_div RJ gi j hjm, SeamCarving.grid_index_mod RJ gi j hjm,
        hgi, if_true]
    · rw [if_neg hgi]
      have hconst : (List.range RJ).foldl
          (fun o j =>
            (fun ix (o : List α) =>
              if guard (ix / RJ) then o.set ix ((fun ix _ => val (ix / RJ) (ix % RJ)) ix
                (o.getD ix (val 0 0))) else o) (gi * RJ + j) o) o
          = (List.range RJ).foldl (fun o _ => o) o := by
        apply List.foldl_ext
        intro o j hjm
        rw [List.mem_range] at hjm
        simp only [SeamCarving.grid_index_div RJ gi j hjm, hgi, Bool.false_eq_true, if_false]
      rw [hconst, foldl_keep]
  simp only [hstep]
  rw [nested_foldl
    (fun ix (o : List α) =>
      if guard (ix / RJ) then o.set ix ((fun ix _ => val (ix / RJ) (ix % RJ)) ix
        (o.getD ix (val 0 0))) else o) RJ M o0]
  rw [foldl_set_lookup (fun ix => guard (ix / RJ)) (fun ix _ => val (ix / RJ) (ix % RJ))
    (val 0 0) o0 (M * RJ) (i * RJ + j)]
  have hlt : i * RJ + j < M * RJ := by
    have := SeamCarving.grid_index_lt RJ M i j hi hj
    rw [Nat.mul_comm RJ M] at this
    exact this
  rw [if_pos ⟨hlt, by rw [SeamCarving.grid_index_div RJ i j hj]; exact hg⟩,
    List.getElem?_eq_getElem hlen, Option.map_some',
    SeamCarving.grid_index_div RJ i j hj, SeamCarving.grid_index_mod RJ i j hj]

end Launch

namespace Haccmk

theorem kernel_sums_eq_gold {F : Type} (A : Arith F) (n2 : Int) (xx yy zz mass : List F)
    (fsrmax mp_rsm : F) (i : Nat) :
    kernel_sums A n2 xx yy zz mass fsrmax mp_rsm i
      = haccmk_gold A n2 (xx.getD i (A.lit 0 0)) (yy.getD i (A.lit 0 0))
          (zz.getD i (A.lit 0 0)) fsrmax mp_rsm xx yy zz mass := rfl

end Haccmk

namespace Bezier

theorem index_cast (a b c : Nat) : ((a : Int) * (b : Int) + (c : Int)).toNat = a * b + c := by
  rw [← Nat.cast_mul, ← Nat.cast_add, Int.toNat_natCast]

/-- The two accumulation loops are the same expression. -/
theorem gpu_point_eq_cpu_point {F : Type} (A : Arith F) (inp : List (XYZ F)) (NI NJ : Int)
    (mui muj : F) : gpu_point A inp NI NJ mui muj = cpu_point A inp NI NJ mui muj := rfl

/-- What `BezierCPU` leaves at element `i * RESOLUTIONJ + j`. -/
theorem BezierCPU_lookup {F : Type} (A : Arith F) (inp outp : List (XYZ F))
    (NI NJ RESOLUTIONI RESOLUTIONJ : Int)
    (hlen : outp.length = (RESOLUTIONI * RESOLUTIONJ).toNat) (i j : Nat)
    (hi : (i : Int) < RESOLUTIONI) (hj : (j : Int) < RESOLUTIONJ) :
    (BezierCPU A inp outp NI NJ RESOLUTIONI RESOLUTIONJ)[i * RESOLUTIONJ.toNat + j]?
      = some (cpu_point A inp NI NJ
          (A.div (A.ofInt i) (A.ofInt (RESOLUTIONI - 1)))
          (A.div (A.ofInt j) (A.ofInt (RESOLUTIONJ - 1)))) := by
  lift RESOLUTIONI to ℕ using (by omega)
  lift RESOLUTIONJ to ℕ using (by omega)
  have hN : ((RESOLUTIONI : Int) * (RESOLUTIONJ : Int)).toNat = RESOLUTIONJ * RESOLUTIONI := by
    rw [← Nat.cast_mul, Int.toNat_natCast, Nat.mul_comm]
  rw [hN] at hlen
  have hin : i < RESOLUTIONI := by omega
  have hjn : j < RESOLUTIONJ := by omega
  have h := Launch.guarded_rows_lookup (fun _ => true)
    (fun i j => cpu_point A inp NI NJ
      (A.div (A.ofInt i) (A.ofInt ((RESOLUTIONI : Int) - 1)))
      (A.div (A.ofInt j) (A.ofInt ((RESOLUTIONJ : Int) - 1))))
    RESOLUTIONJ outp RESOLUTIONI i j hjn hin rfl
    (by rw [hlen]; exact SeamCarving.grid_index_lt _ _ _ _ hin hjn)
  simp only [if_true] at h
  unfold BezierCPU
  simp only [Int.toNat_natCast, index_cast]
  exact h

/-- What the launch of `BezierGPU` leaves at element `i * RESOLUTIONJ + j`
for `i < RESOLUTIONI`. -/
theorem BezierGPU_lookup {F : Type} (A : Arith F) (inp outp : List (XYZ F))
    (NI NJ RESOLUTIONI RESOLUTIONJ work_group_size : Int) (hwgs : 1 ≤ work_group_size)
    (hlen : outp.length = (RESOLUTIONI * RESOLUTIONJ).toNat) (i j : Nat)
    (hi : (i : Int) < RESOLUTIONI) (hj : (j : Int) < RESOLUTIONJ) :
    ((List.range (Int.tdiv (RESOLUTIONI + work_group_size - 1) work_group_size).toNat).foldl
        (fun outp group => (List.range work_group_size.toNat).foldl
          (fun outp local_id => BezierGPU A inp outp NI NJ RESOLUTIONI RESOLUTIONJ
            work_group_size.toNat group local_id) outp)
        outp)[i * RESOLUTIONJ.toNat + j]?
      = some (gpu_point A inp NI NJ
          (A.div (A.ofInt i) (A.ofInt (RESOLUTIONI - 1)))
          (A.div (A.ofInt j) (A.ofInt (RESOLUTIONJ - 1)))) := by
  lift RESOLUTIONI to ℕ using (by omega)
  lift RESOLUTIONJ to ℕ using (by omega)
  lift work_group_size to ℕ using (by omega)
  have hN : ((RESOLUTIONI : Int) * (RESOLUTIONJ : Int)).toNat = RESOLUTIONJ * RESOLUTIONI := by
    rw [← Nat.cast_mul, Int.toNat_natCast, Nat.mul_comm]
  rw [hN] at hlen
  have hin : i < RESOLUTIONI := by omega
  have hjn : j < RESOLUTIONJ := by omega
  have hB : 1 ≤ work_group_size := by omega
  have hgroups : (Int.tdiv ((RESOLUTIONI : Int) + (work_group_size : Int) - 1)
      (work_group_size : Int)).toNat
        = (RESOLUTIONI + work_group_size - 1) / work_group_size := by
    rw [Int.tdiv_eq_ediv (by omega) (by omega)]
    have h1 : (RESOLUTIONI : Int) + (work_group_size : Int) - 1
        = ((RESOLUTIONI + work_group_size - 1 : Nat) : Int) := by omega
    rw [h1, ← Int.natCast_div, Int.toNat_natCast]
  have hcover : RESOLUTIONI ≤ (RESOLUTIONI + work_group_size - 1) / work_group_size
      * work_group_size := by
    have h1 := Nat.div_add_mod (RESOLUTIONI + work_group_size - 1) work_group_size
    have h2 := Nat.mod_lt (RESOLUTIONI + work_group_size - 1) (by omega : work_group_size > 0)
    rw [Nat.mul_comm] at h1
    generalize (RESOLUTIONI + work_group_size - 1) / work_group_size * work_group_size = p at *
    omega
  have hitem : ∀ (o : List (XYZ F)) (group local_id : Nat),
      BezierGPU A inp o NI NJ (RESOLUTIONI : Int) (RESOLUTIONJ : Int) work_group_size group
          local_id
        = (fun gi (o : List (XYZ F)) =>
            if (fun gi : Nat => decide ((gi : Int) ≤ (RESOLUTIONI : Int))) gi then
              (List.range RESOLUTIONJ).foldl
                (fun o j => o.set (gi * RESOLUTIONJ + j)
                  ((fun gi j => gpu_point A inp NI NJ
                    (A.div (A.ofInt (gi : Int)) (A.ofInt ((RESOLUTIONI : Int) - 1)))
                    (A.div (A.ofInt (j : Int)) (A.ofInt ((RESOLUTIONJ : Int) - 1)))) gi j)) o
            else o) (group * work_group_size + local_id) o := by
    intro o group local_id
    have hcast : (work_group_size : Int) * (group : Int) + (local_id : Int)
        = ((group * work_group_size + local_id : Nat) : Int) := by
      push_cast
      rw [Int.mul_comm]
    unfold BezierGPU
    simp only [hcast, Int.toNat_natCast, index_cast]
    by_cases hgt : ((group * work_group_size + local_id : Nat) : Int) > (RESOLUTIONI : Int)
    · have hle : ¬ ((group * work_group_size + local_id : Nat) : Int) ≤ (RESOLUTIONI : Int) := by
        omega
      simp only [if_pos hgt, hle, decide_False, Bool.false_eq_true, if_false]
    · have hle : ((group * work_group_size + local_id : Nat) : Int) ≤ (RESOLUTIONI : Int) := by
        omega
      simp only [if_neg hgt, hle, decide_True, if_true]
  simp only [Int.toNat_natCast, hitem, hgroups]
  rw [Launch.nested_foldl
    (fun gi (o : List (XYZ F)) =>
      if (fun gi : Nat => decide ((gi : Int) ≤ (RESOLUTIONI : Int))) gi then
        (List.range RESOLUTIONJ).foldl
          (fun o j => o.set (gi * RESOLUTIONJ + j)
            ((fun gi j => gpu_point A inp NI NJ
              (A.div (A.ofInt (gi : Int)) (A.ofInt ((RESOLUTIONI : Int) - 1)))
              (A.div (A.ofInt (j : Int)) (A.ofInt ((RESOLUTIONJ : Int) - 1)))) gi j)) o
      else o) work_group_size _ outp]
  exact Launch.guarded_rows_lookup (fun gi : Nat => decide ((gi : Int) ≤ (RESOLUTIONI : Int)))
    (fun gi j => gpu_point A inp NI NJ
      (A.div (A.ofInt (gi : Int)) (A.ofInt ((RESOLUTIONI : Int) - 1)))
      (A.div (A.ofInt (j : Int)) (A.ofInt ((RESOLUTIONJ : Int) - 1))))
    RESOLUTIONJ outp _ i j hjn (by omega) (by simp; omega)
    (by rw [hlen]; exact SeamCarving.grid_index_lt _ _ _ _ hin hjn)

/-- C16: when the device operations are those of the host, for every
`i < RESOLUTIONI` and `j < RESOLUTIONJ` the element `i * RESOLUTIONJ + j` of
`gpu_out` after the launch built in `run` and the same element of `cpu_out`
after `BezierCPU` hold the same value: the accumulation of lines 207-216 at
`mui = i / (RESOLUTIONI - 1)`, `muj = j / (RESOLUTIONJ - 1)`. -/
theorem gpu_surface_equals_cpu {F : Type} (D H : Arith F) (hDH : D = H)
    (inp : List (XYZ F))
    (in_size_i in_size_j out_size_i out_size_j work_group_size : Int)
    (cpu_mem dev_mem : List (XYZ F)) (hwgs : 1 ≤ work_group_size)
    (hinp : inp.length = ((in_size_i + 1) * (in_size_j + 1)).toNat)
    (hcpu : cpu_mem.length = (out_size_i * out_size_j).toNat)
    (hdev : dev_mem.length = (out_size_i * out_size_j).toNat)
    (i j : Nat) (hi : (i : Int) < out_size_i) (hj : (j : Int) < out_size_j) :
    (run D H inp in_size_i in_size_j out_size_i out_size_j work_group_size cpu_mem
        dev_mem).1[i * out_size_j.toNat + j]?
      = some (cpu_point H inp in_size_i in_size_j
          (H.div (H.ofInt (i : Int)) (H.ofInt (out_size_i - 1)))
          (H.div (H.ofInt (j : Int)) (H.ofInt (out_size_j - 1)))) ∧
    (run D H inp in_size_i in_size_j out_size_i out_size_j work_group_size cpu_mem
        dev_mem).2[i * out_size_j.toNat + j]?
      = some (cpu_point H inp in_size_i in_size_j
          (H.div (H.ofInt (i : Int)) (H.ofInt (out_size_i - 1)))
          (H.div (H.ofInt (j : Int)) (H.ofInt (out_size_j - 1)))) := by
  subst hDH
  have htake : inp.take ((in_size_i + 1) * (in_size_j + 1)).toNat = inp := by
    rw [← hinp, List.take_length]
  unfold run
  simp only [htake]
  exact ⟨BezierGPU_lookup D inp dev_mem in_size_i in_size_j out_size_i out_size_j
      work_group_size hwgs hdev i j hi hj,
    BezierCPU_lookup D inp cpu_mem in_size_i in_size_j out_size_i out_size_j hcpu i j hi hj⟩

/-- Witness of C16: a 2x2 output from a 2x2 control grid, groups of 4. -/
theorem gpu_surface_equals_cpu_witness :
    (run int_arith int_arith [dot 1, dot 2, dot 3, dot 4] 1 1 2 2 4
        [dot 0, dot 0, dot 0, dot 0] [dot 9, dot 9, dot 9, dot 9]).1[1 * (2 : Int).toNat + 1]?
      = (run int_arith int_arith [dot 1, dot 2, dot 3, dot 4] 1 1 2 2 4
        [dot 0, dot 0, dot 0, dot 0] [dot 9, dot 9, dot 9, dot 9]).2[1 * (2 : Int).toNat + 1]? :=
  ((gpu_surface_equals_cpu int_arith int_arith rfl [dot 1, dot 2, dot 3, dot 4] 1 1 2 2 4
      [dot 0, dot 0, dot 0, dot 0] [dot 9, dot 9, dot 9, dot 9] (by decide) rfl rfl rfl 1 1
      (by decide) (by decide)).1).trans
    ((gpu_surface_equals_cpu int_arith int_arith rfl [dot 1, dot 2, dot 3, dot 4] 1 1 2 2 4
      [dot 0, dot 0, dot 0, dot 0] [dot 9, dot 9, dot 9, dot 9] (by decide) rfl rfl rfl 1 1
      (by decide) (by decide)).2).symm

end Bezier

namespace SeamCarving

theorem loop_body_reduce (K : Kernels) (mode : seam_carver_mode) (s : State) :
    (loop_body K mode s).reduce_index = s.reduce_index ∧
    (loop_body K mode s).reduce_range = s.reduce_range := by
  cases mode <;>
    simp [loop_body, removal_steps, seam_steps, swap_pixels, swap_costs, call_compute_costs,
      call_compute_M, call_find_min_index, call_find_seam, call_approx_setup, call_approx_M,
      call_approx_seam, call_remove_seam, call_update_costs]

theorem initial_state_reduce (W : World) (mode : seam_carver_mode) (img : Image) :
    (initial_state W mode img).reduce_index
      = (if mode = seam_carver_mode.SEAM_CARVER_APPROX_MODE then 0
         else img.w * (img.h - 1)) ∧
    (initial_state W mode img).reduce_range
      = (if mode = seam_carver_mode.SEAM_CARVER_APPROX_MODE then img.w * img.h
         else img.w * img.h - img.w * (img.h - 1)) := by
  cases mode <;> simp [initial_state, call_compute_costs]

/-- The sub-buffer that starts at row `h - 1` and is `w` long is row `h - 1`. -/
theorem sub_buffer_last_row (d_M : List Int) (w h : Int) (hw : 0 ≤ w) (hh : 1 ≤ h)
    (hlen : d_M.length = (w * h).toNat) :
    (sub_buffer d_M (w * (h - 1)) w).length = w.toNat ∧
    ∀ c : Nat, c < w.toNat →
      (sub_buffer d_M (w * (h - 1)) w).getD c 0 = cell d_M w (h - 1).toNat c := by
  lift w to ℕ using hw
  obtain ⟨k, rfl⟩ : ∃ k : Nat, h = (k : Int) + 1 := ⟨(h - 1).toNat, by omega⟩
  have h1 : ((w : Int) * ((k : Int) + 1 - 1)).toNat = k * w := by
    rw [add_sub_cancel_right, ← Nat.cast_mul, Int.toNat_natCast, Nat.mul_comm]
  have h2 : ((w : Int) * ((k : Int) + 1)).toNat = k * w + w := by
    have : (w : Int) * ((k : Int) + 1) = ((k * w + w : Nat) : Int) := by push_cast; ring
    rw [this, Int.toNat_natCast]
  have h3 : ((k : Int) + 1 - 1).toNat = k := by omega
  rw [h2] at hlen
  unfold sub_buffer cell
  rw [h1, h3]
  simp only [Int.toNat_natCast]
  refine ⟨by rw [List.length_take, List.length_drop]; omega, ?_⟩
  intro c hc
  rw [List.getD_eq_getElem?_getD, List.getD_eq_getElem?_getD, List.getElem?_take, if_pos hc,
    List.getElem?_drop]

theorem find_min_index_site_reduce (K : Kernels) (mode : seam_carver_mode) (s : State) :
    (find_min_index_site K mode s).reduce_index = s.reduce_index ∧
    (find_min_index_site K mode s).reduce_range = s.reduce_range := by
  cases mode <;>
    simp [find_min_index_site, call_compute_costs, call_compute_M, call_approx_setup,
      call_approx_M]

/-- The iteration calls `find_min_index` in the state `find_min_index_site`
and then the tracer of its mode. -/
theorem seam_steps_site (K : Kernels) (mode : seam_carver_mode) (s : State) :
    seam_steps K mode s
      = (if mode ≠ seam_carver_mode.SEAM_CARVER_APPROX_MODE then call_find_seam K
         else call_approx_seam K)
          (call_find_min_index K (find_min_index_site K mode s)) := by
  cases mode <;> rfl

/-- C21: at every head of the loop the sub-buffer `reduce_row` is as it was
set up: in standard and update mode it starts at offset `w*(h-1)` and has
length `img_size - w*(h-1) = w`, which on a table of `w*h` entries is exactly
row `h-1` at stride `w`; in approximate mode it starts at offset 0, has length
`w*h` and is the whole table.  The iteration that starts at the head hands
this sub-buffer of the table `d_M`, as `compute_M` (or `approx_M`) has just
left it, to `find_min_index` as its last argument. -/
theorem reduce_row_extent (W : World) (mode : seam_carver_mode) (n : Int) (img : Image)
    (s : State) (hs : LoopHead W.kernels mode n (initial_state W mode img) s) :
    (mode ≠ seam_carver_mode.SEAM_CARVER_APPROX_MODE →
      s.reduce_index = img.w * (img.h - 1) ∧
      s.reduce_range = img.w * img.h - img.w * (img.h - 1) ∧ s.reduce_range = img.w ∧
      (0 ≤ img.w → 1 ≤ img.h → ∀ d_M : List Int, d_M.length = (img.w * img.h).toNat →
        (sub_buffer d_M s.reduce_index s.reduce_range).length = img.w.toNat ∧
        ∀ c : Nat, c < img.w.toNat →
          (sub_buffer d_M s.reduce_index s.reduce_range).getD c 0
            = cell d_M img.w (img.h - 1).toNat c)) ∧
    (mode = seam_carver_mode.SEAM_CARVER_APPROX_MODE →
      s.reduce_index = 0 ∧ s.reduce_range = img.w * img.h ∧
      ∀ d_M : List Int, d_M.length = (img.w * img.h).toNat →
        sub_buffer d_M s.reduce_index s.reduce_range = d_M) ∧
    seam_steps W.kernels mode s
      = (if mode ≠ seam_carver_mode.SEAM_CARVER_APPROX_MODE then call_find_seam W.kernels
         else call_approx_seam W.kernels)
          (call_find_min_index W.kernels (find_min_index_site W.kernels mode s)) ∧
    (mode ≠ seam_carver_mode.SEAM_CARVER_APPROX_MODE →
      (call_find_min_index W.kernels (find_min_index_site W.kernels mode s)).dev.d_indices
        = W.kernels.find_min_index (find_min_index_site W.kernels mode s).current_w
            (find_min_index_site W.kernels mode s).dev.d_indices_ref
            (find_min_index_site W.kernels mode s).dev.d_indices
            (sub_buffer (find_min_index_site W.kernels mode s).dev.d_M
              (img.w * (img.h - 1)) img.w) ∧
      (0 ≤ img.w → 1 ≤ img.h →
        (find_min_index_site W.kernels mode s).dev.d_M.length = (img.w * img.h).toNat →
        ∀ c : Nat, c < img.w.toNat →
          (sub_buffer (find_min_index_site W.kernels mode s).dev.d_M
              (img.w * (img.h - 1)) img.w).getD c 0
            = cell (find_min_index_site W.kernels mode s).dev.d_M img.w (img.h - 1).toNat c)) ∧
    (mode = seam_carver_mode.SEAM_CARVER_APPROX_MODE →
      (call_find_min_index W.kernels (find_min_index_site W.kernels mode s)).dev.d_indices
        = W.kernels.find_min_index (find_min_index_site W.kernels mode s).current_w
            (find_min_index_site W.kernels mode s).dev.d_indices_ref
            (find_min_index_site W.kernels mode s).dev.d_indices
            (sub_buffer (find_min_index_site W.kernels mode s).dev.d_M 0 (img.w * img.h))) := by
  have hfix : s.reduce_index = (initial_state W mode img).reduce_index ∧
      s.reduce_range = (initial_state W mode img).reduce_range := by
    induction hs with
    | entry => exact ⟨rfl, rfl⟩
    | next s _ _ ih =>
      obtain ⟨h1, h2⟩ := loop_body_reduce W.kernels mode s
      rw [h1, h2]
      exact ih
  obtain ⟨hi, hr⟩ := initial_state_reduce W mode img
  rw [hi] at hfix
  rw [hr] at hfix
  obtain ⟨hsi, hsr⟩ := find_min_index_site_reduce W.kernels mode s
  have hcall :
      (call_find_min_index W.kernels (find_min_index_site W.kernels mode s)).dev.d_indices
        = W.kernels.find_min_index (find_min_index_site W.kernels mode s).current_w
            (find_min_index_site W.kernels mode s).dev.d_indices_ref
            (find_min_index_site W.kernels mode s).dev.d_indices
            (sub_buffer (find_min_index_site W.kernels mode s).dev.d_M
              s.reduce_index s.reduce_range) := by
    rw [← hsi, ← hsr]
    rfl
  refine ⟨fun hm => ?_, fun hm => ?_, seam_steps_site W.kernels mode s, fun hm => ?_,
    fun hm => ?_⟩
  · rw [if_neg hm, if_neg hm] at hfix
    have hrange : s.reduce_range = img.w := by rw [hfix.2]; ring
    refine ⟨hfix.1, hfix.2, hrange, ?_⟩
    intro hw hh d_M hlen
    rw [hfix.1, hrange]
    exact sub_buffer_last_row d_M img.w img.h hw hh hlen
  · rw [if_pos hm, if_pos hm] at hfix
    refine ⟨hfix.1, hfix.2, ?_⟩
    intro d_M hlen
    rw [hfix.1, hfix.2]
    unfold sub_buffer
    rw [← hlen]
    simp
  · rw [if_neg hm, if_neg hm] at hfix
    have hrange : s.reduce_range = img.w := by rw [hfix.2]; ring
    rw [hfix.1, hrange] at hcall
    refine ⟨hcall, ?_⟩
    intro hw hh hlen
    exact (sub_buffer_last_row _ img.w img.h hw hh hlen).2
  · rw [if_pos hm, if_pos hm] at hfix
    rw [hfix.1, hfix.2] at hcall
    exact hcall

/-- Witness of C21: the loop head after one iteration on the 3x2 image.  In
standard mode `reduce_row` starts at offset 3 and has length 3, and of the
table 10, ..., 60 `find_min_index` receives row 1, the entries 40, 50, 60; in
approximate mode it starts at 0, has length 6 and `find_min_index` receives
the whole table. -/
theorem reduce_row_extent_witness :
    ((probe_head seam_carver_mode.SEAM_CARVER_STANDARD_MODE).reduce_index = 3 ∧
     (probe_head seam_carver_mode.SEAM_CARVER_STANDARD_MODE).reduce_range = 3 ∧
     (call_find_min_index probe_kernels
        (find_min_index_site probe_kernels seam_carver_mode.SEAM_CARVER_STANDARD_MODE
          (probe_head seam_carver_mode.SEAM_CARVER_STANDARD_MODE))).dev.d_indices
       = [40, 50, 60]) ∧
    ((probe_head seam_carver_mode.SEAM_CARVER_APPROX_MODE).reduce_index = 0 ∧
     (probe_head seam_carver_mode.SEAM_CARVER_APPROX_MODE).reduce_range = 6 ∧
     (call_find_min_index probe_kernels
        (find_min_index_site probe_kernels seam_carver_mode.SEAM_CARVER_APPROX_MODE
          (probe_head seam_carver_mode.SEAM_CARVER_APPROX_MODE))).dev.d_indices
       = [10, 20, 30, 40, 50, 60]) :=
  ⟨⟨((reduce_row_extent (probe_world 2 tall_image) seam_carver_mode.SEAM_CARVER_STANDARD_MODE
        2 tall_image (probe_head seam_carver_mode.SEAM_CARVER_STANDARD_MODE)
        (LoopHead.next _ LoopHead.entry (by decide))).1 (by decide)).1.trans (by decide),
    ((reduce_row_extent (probe_world 2 tall_image) seam_carver_mode.SEAM_CARVER_STANDARD_MODE
        2 tall_image (probe_head seam_carver_mode.SEAM_CARVER_STANDARD_MODE)
        (LoopHead.next _ LoopHead.entry (by decide))).1 (by decide)).2.2.1.trans (by decide),
    ((reduce_row_extent (probe_world 2 tall_image) seam_carver_mode.SEAM_CARVER_STANDARD_MODE
        2 tall_image (probe_head seam_carver_mode.SEAM_CARVER_STANDARD_MODE)
        (LoopHead.next _ LoopHead.entry (by decide))).2.2.2.1 (by decide)).1.trans
      (by decide)⟩,
   ⟨((reduce_row_extent (probe_world 2 tall_image) seam_carver_mode.SEAM_CARVER_APPROX_MODE
        2 tall_image (probe_head seam_carver_mode.SEAM_CARVER_APPROX_MODE)
        (LoopHead.next _ LoopHead.entry (by decide))).2.1 rfl).1,
    ((reduce_row_extent (probe_world 2 tall_image) seam_carver_mode.SEAM_CARVER_APPROX_MODE
        2 tall_image (probe_head seam_carver_mode.SEAM_CARVER_APPROX_MODE)
        (LoopHead.next _ LoopHead.entry (by decide))).2.1 rfl).2.1.trans (by decide),
    ((reduce_row_extent (probe_world 2 tall_image) seam_carver_mode.SEAM_CARVER_APPROX_MODE
        2 tall_image (probe_head seam_carver_mode.SEAM_CARVER_APPROX_MODE)
        (LoopHead.next _ LoopHead.entry (by decide))).2.2.2.2 rfl).trans (by decide)⟩⟩

theorem walk_length (direction : Nat → Int → Int) :
    ∀ (rows : Nat) (col : Int), (walk direction rows col).length = rows := by
  intro rows
  induction rows with
  | zero => intro col; rfl
  | succ rows ih => intro col; simp [walk, ih]

/-- The checked tracer returns the walked columns when all of them lie in
`[0, current_w)` and fails otherwise. -/
theorem trace_rows_eq (direction : Nat → Int → Int) (current_w : Int) :
    ∀ (rows : Nat) (col : Int),
      trace_rows direction current_w rows col
        = if ∀ c ∈ walk direction rows col, 0 ≤ c ∧ c < current_w
          then some (walk direction rows col) else none := by
  intro rows
  induction rows with
  | zero => intro col; simp [trace_rows, walk]
  | succ rows ih =>
    intro col
    simp only [trace_rows, walk, List.mem_cons, forall_eq_or_imp]
    by_cases hc : 0 ≤ col ∧ col < current_w
    · rw [if_pos hc, ih]
      by_cases hrest : ∀ c ∈ walk direction rows (col + direction rows col),
          0 ≤ c ∧ c < current_w
      · rw [if_pos hrest, if_pos ⟨hc, hrest⟩]
        rfl
      · rw [if_neg hrest, if_neg (fun h => hrest h.2)]
        rfl
    · rw [if_neg hc, if_neg (fun h => hc h.1)]

/-- C22: a seam that `find_seam` returns has exactly `h` entries, one per
row, the entry of row `h - 1` being the start column and the entry of every
row before being the one the direction implies, and every entry lies in
`[0, current_w)`; `find_seam` returns the walked seam whenever all walked
columns are in range, and fails, without replacing the column, as soon as
one of them is not. -/
theorem find_seam_rows (direction : Nat → Int → Int) (current_w w h : Int)
    (d_M d_indices d_seam : List Int) :
    (∀ seam : List Int,
      find_seam direction current_w w h d_M d_indices d_seam = some seam →
      seam.length = h.toNat ∧
      (∀ c ∈ seam, 0 ≤ c ∧ c < current_w) ∧
      seam = (walk direction h.toNat (d_indices.getD 0 0)).reverse ∧
      (1 ≤ h → seam.getD (h.toNat - 1) 0 = d_indices.getD 0 0)) ∧
    ((∀ c ∈ walk direction h.toNat (d_indices.getD 0 0), 0 ≤ c ∧ c < current_w) →
      find_seam direction current_w w h d_M d_indices d_seam
        = some (walk direction h.toNat (d_indices.getD 0 0)).reverse) ∧
    ((∃ c ∈ walk direction h.toNat (d_indices.getD 0 0), ¬ (0 ≤ c ∧ c < current_w)) →
      find_seam direction current_w w h d_M d_indices d_seam = none) := by
  refine ⟨?_, ?_, ?_⟩
  · intro seam hseam
    unfold find_seam at hseam
    rw [trace_rows_eq] at hseam
    by_cases hall : ∀ c ∈ walk direction h.toNat (d_indices.getD 0 0), 0 ≤ c ∧ c < current_w
    · rw [if_pos hall] at hseam
      simp only [Option.map_some', Option.some.injEq] at hseam
      subst hseam
      refine ⟨by rw [List.length_reverse, walk_length], ?_, rfl, ?_⟩
      · intro c hc
        exact hall c (List.mem_reverse.mp hc)
      · intro h1
        obtain ⟨k, hk⟩ : ∃ k : Nat, h.toNat = k + 1 := ⟨h.toNat - 1, by omega⟩
        rw [hk]
        simp only [walk, List.reverse_cons, Nat.add_sub_cancel]
        rw [List.getD_eq_getElem?_getD, List.getElem?_append_right (by simp [walk_length])]
        simp [walk_length]
    · rw [if_neg hall] at hseam
      simp at hseam
  · intro hall
    unfold find_seam
    rw [trace_rows_eq, if_pos hall]
    rfl
  · rintro ⟨c, hc, hout⟩
    unfold find_seam
    rw [trace_rows_eq, if_neg (fun hall => hout (hall c hc))]
    rfl

/-- Witness of C22: three rows, start column 1, the direction always one to
the left: the walk 1, 0, -1 leaves the range and the trace fails; with the
direction 0 the seam is column 1 in all three rows. -/
theorem find_seam_rows_witness :
    find_seam (fun _ _ => -1) 3 3 3 [] [1] [0, 0, 0] = none ∧
    find_seam (fun _ _ => 0) 3 3 3 [] [1] [0, 0, 0] = some [1, 1, 1] :=
  ⟨(find_seam_rows (fun _ _ => -1) 3 3 3 [] [1] [0, 0, 0]).2.2
      ⟨-1, by decide, by decide⟩,
   (find_seam_rows (fun _ _ => 0) 3 3 3 [] [1] [0, 0, 0]).2.1 (by decide)⟩

end SeamCarving

namespace D2q9

theorem succ_wrap (N i : Int) (hi0 : 0 ≤ i) (hi : i < N) :
    Int.tmod (i + 1) N = (i + 1) % N ∧ 0 ≤ Int.tmod (i + 1) N ∧ Int.tmod (i + 1) N < N := by
  have h1 : Int.tmod (i + 1) N = (i + 1) % N := Int.tmod_eq_emod (by omega) (by omega)
  rw [h1]
  exact ⟨rfl, Int.emod_nonneg _ (by omega), Int.emod_lt_of_pos _ (by omega)⟩

theorem pred_wrap (N i : Int) (hi0 : 0 ≤ i) (hi : i < N) :
    (if i = 0 then i + N - 1 else i - 1) = (i - 1) % N ∧
    0 ≤ (if i = 0 then i + N - 1 else i - 1) ∧ (if i = 0 then i + N - 1 else i - 1) < N := by
  by_cases h0 : i = 0
  · subst h0
    rw [if_pos rfl]
    have h1 : ((0 : Int) - 1) % N = (0 + N - 1) % N := by
      have : (0 : Int) + N - 1 = (0 - 1) + N := by ring
      rw [this, Int.add_emod_self]
    rw [h1, Int.emod_eq_of_lt (by omega) (by omega)]
    exact ⟨rfl, by omega, by omega⟩
  · rw [if_neg h0, Int.emod_eq_of_lt (by omega) (by omega)]
    exact ⟨rfl, by omega, by omega⟩

theorem flat_index_bounds (Nx Ny x y : Int) (hx0 : 0 ≤ x) (hx : x < Nx) (hy0 : 0 ≤ y)
    (hy : y < Ny) : 0 ≤ x + y * Nx ∧ x + y * Nx < Nx * Ny := by
  have h1 : 0 ≤ y * Nx := mul_nonneg hy0 (by omega)
  have h2 : (y + 1) * Nx ≤ Ny * Nx := mul_le_mul_of_nonneg_right (by omega) (by omega)
  have h3 : (y + 1) * Nx = y * Nx + Nx := by ring
  have h4 : Ny * Nx = Nx * Ny := by ring
  constructor
  · omega
  · rw [← h4]
    omega

/-- C23: for `Nx ≥ 1`, `Ny ≥ 1` and a cell `0 ≤ ii < Nx`, `0 ≤ jj < Ny` the
neighbour indices are `x_e = (ii+1) mod Nx`, `x_w = (ii-1) mod Nx`,
`y_n = (jj+1) mod Ny`, `y_s = (jj-1) mod Ny` with the mathematical modulo;
each lies in `[0, Nx)` resp. `[0, Ny)`, and every array index of the
propagation step lies in `[0, Nx*Ny)`. -/
theorem neighbours_wrap (Nx Ny ii jj : Int) (_hNx : 1 ≤ Nx) (_hNy : 1 ≤ Ny)
    (hi0 : 0 ≤ ii) (hi : ii < Nx) (hj0 : 0 ≤ jj) (hj : jj < Ny) :
    (neighbours Nx Ny ii jj).x_e = (ii + 1) % Nx ∧
    (neighbours Nx Ny ii jj).x_w = (ii - 1) % Nx ∧
    (neighbours Nx Ny ii jj).y_n = (jj + 1) % Ny ∧
    (neighbours Nx Ny ii jj).y_s = (jj - 1) % Ny ∧
    (0 ≤ (neighbours Nx Ny ii jj).x_e ∧ (neighbours Nx Ny ii jj).x_e < Nx) ∧
    (0 ≤ (neighbours Nx Ny ii jj).x_w ∧ (neighbours Nx Ny ii jj).x_w < Nx) ∧
    (0 ≤ (neighbours Nx Ny ii jj).y_n ∧ (neighbours Nx Ny ii jj).y_n < Ny) ∧
    (0 ≤ (neighbours Nx Ny ii jj).y_s ∧ (neighbours Nx Ny ii jj).y_s < Ny) ∧
    ∀ ix ∈ stencil_indices Nx Ny ii jj, 0 ≤ ix ∧ ix < Nx * Ny := by
  obtain ⟨e1, e2, e3⟩ := succ_wrap Nx ii hi0 hi
  obtain ⟨w1, w2, w3⟩ := pred_wrap Nx ii hi0 hi
  obtain ⟨n1, n2, n3⟩ := succ_wrap Ny jj hj0 hj
  obtain ⟨s1, s2, s3⟩ := pred_wrap Ny jj hj0 hj
  refine ⟨e1, w1, n1, s1, ⟨e2, e3⟩, ⟨w2, w3⟩, ⟨n2, n3⟩, ⟨s2, s3⟩, ?_⟩
  intro ix hix
  simp only [stencil_indices, List.mem_cons, List.mem_singleton, List.not_mem_nil,
    or_false] at hix
  rcases hix with rfl | rfl | rfl | rfl | rfl | rfl | rfl | rfl | rfl
  · exact flat_index_bounds Nx Ny _ _ hi0 hi hj0 hj
  · exact flat_index_bounds Nx Ny _ _ w2 w3 hj0 hj
  · exact flat_index_bounds Nx Ny _ _ hi0 hi s2 s3
  · exact flat_index_bounds Nx Ny _ _ e2 e3 hj0 hj
  · exact flat_index_bounds Nx Ny _ _ hi0 hi n2 n3
  · exact flat_index_bounds Nx Ny _ _ w2 w3 s2 s3
  · exact flat_index_bounds Nx Ny _ _ e2 e3 s2 s3
  · exact flat_index_bounds Nx Ny _ _ e2 e3 n2 n3
  · exact flat_index_bounds Nx Ny _ _ w2 w3 n2 n3

/-- Witness of C23: the corner cell `(0, 2)` of a 4x3 grid. -/
theorem neighbours_wrap_witness :
    neighbours 4 3 0 2 = { y_n := 0, x_e := 1, y_s := 1, x_w := 3 } ∧
    ∀ ix ∈ stencil_indices 4 3 0 2, 0 ≤ ix ∧ ix < 4 * 3 :=
  ⟨by decide,
   (neighbours_wrap 4 3 0 2 (by decide) (by decide) (by decide) (by decide) (by decide)
      (by decide)).2.2.2.2.2.2.2.2⟩

theorem flatMap_singleton_map {α β : Type} (f : α → β) (l : List α) :
    l.flatMap (fun i => [f i]) = l.map f := by
  induction l with
  | nil => rfl
  | cons a l ih => rw [List.flatMap_cons, ih]; rfl

/-- C28: for `Nx` a positive multiple of `LOCALSIZEX`, `Ny ≥ 1` and a
timestep `tt ≥ 0` the indices the host sums into `av_vels[tt]` are the
indices the kernel writes in timestep `tt`: the two lists are equal, so an
index is summed exactly when it is written. -/
theorem host_sums_what_kernel_writes (Nx Ny tt m : Int) (hm : 1 ≤ m)
    (hNx : Nx = LOCALSIZEX * m) (hNy : 1 ≤ Ny) (htt : 0 ≤ tt) :
    host_summed Nx Ny tt = kernel_written Nx Ny tt ∧
    (∀ ix : Int, ix ∈ host_summed Nx Ny tt ↔ ix ∈ kernel_written Nx Ny tt) ∧
    (∀ ix : Int, ix ∈ kernel_written Nx Ny tt ↔
      tt * (m * Ny) ≤ ix ∧ ix < (tt + 1) * (m * Ny)) := by
  subst hNx
  lift m to ℕ using (by omega)
  lift Ny to ℕ using (by omega)
  lift tt to ℕ using htt
  have hq : Int.tdiv (LOCALSIZEX * (m : Int)) LOCALSIZEX = (m : Int) := by
    unfold LOCALSIZEX
    rw [Int.tdiv_eq_ediv (by omega) (by decide)]
    omega
  have hq2 : Int.tdiv ((tt : Int) * (LOCALSIZEX * (m : Int))) LOCALSIZEX
      = (tt : Int) * (m : Int) := by
    unfold LOCALSIZEX
    have hnn : (0 : Int) ≤ (tt : Int) * (128 * (m : Int)) := by positivity
    rw [Int.tdiv_eq_ediv hnn (by decide)]
    have : (tt : Int) * (128 * (m : Int)) = 128 * ((tt : Int) * (m : Int)) := by ring
    rw [this, Int.mul_ediv_cancel_left _ (by decide)]
  have hone : ∀ x : Int, Int.tdiv x LOCALSIZEY = x := by
    intro x
    unfold LOCALSIZEY
    exact Int.tdiv_one x
  have hlist : host_summed (LOCALSIZEX * (m : Int)) (Ny : Int) (tt : Int)
      = kernel_written (LOCALSIZEX * (m : Int)) (Ny : Int) (tt : Int) := by
    unfold host_summed kernel_written group_range partial_sum_index
    simp only [hq, hq2, hone]
    have hcast : ((m : Int) * (Ny : Int)).toNat = Ny * m := by
      rw [← Nat.cast_mul, Int.toNat_natCast, Nat.mul_comm]
    rw [hcast]
    simp only [Int.toNat_natCast]
    have hflat := SeamCarving.rows_flat
      (fun i : Nat => [((i : Nat) : Int) + (tt : Int) * (m : Int) * (Ny : Int)]) m Ny
    have hinner : ∀ group_id2 : Nat,
        (List.range m).flatMap (fun (group_id : Nat) =>
          [(group_id : Int) + (group_id2 : Int) * (m : Int) + (tt : Int) * (m : Int) * (Ny : Int)])
        = (List.range m).flatMap (fun (c : Nat) =>
          [((group_id2 * m + c : Nat) : Int) + (tt : Int) * (m : Int) * (Ny : Int)]) := by
      intro group_id2
      congr 1
      funext c
      push_cast
      congr 1
      ring
    simp only [hinner]
    rw [hflat]
    exact (flatMap_singleton_map _ _).symm
  refine ⟨hlist, fun ix => by rw [hlist], ?_⟩
  intro ix
  rw [← hlist]
  unfold host_summed
  simp only [hq, hq2, hone, List.mem_map, List.mem_range]
  have hcast : ((m : Int) * (Ny : Int)).toNat = m * Ny := by
    rw [← Nat.cast_mul, Int.toNat_natCast]
  rw [hcast]
  constructor
  · rintro ⟨i, hi, rfl⟩
    have hi' : (i : Int) < (m : Int) * (Ny : Int) := by exact_mod_cast hi
    constructor
    · nlinarith
    · nlinarith
  · rintro ⟨h1, h2⟩
    refine ⟨(ix - (tt : Int) * ((m : Int) * (Ny : Int))).toNat, ?_, ?_⟩
    · have h3 : ix - (tt : Int) * ((m : Int) * (Ny : Int)) < (m : Int) * (Ny : Int) := by
        nlinarith
      have h4 : (0 : Int) ≤ ix - (tt : Int) * ((m : Int) * (Ny : Int)) := by omega
      have h5 : ((ix - (tt : Int) * ((m : Int) * (Ny : Int))).toNat : Int)
          < ((m * Ny : Nat) : Int) := by
        rw [Int.toNat_of_nonneg h4]
        push_cast
        exact h3
      exact_mod_cast h5
    · rw [Int.toNat_of_nonneg (by omega)]
      ring

/-- Witness of C28: `Nx = 256`, `Ny = 2`, timestep 3. -/
theorem host_sums_what_kernel_writes_witness :
    host_summed 256 2 3 = kernel_written 256 2 3 ∧ host_summed 256 2 3 = [12, 13, 14, 15] :=
  ⟨(host_sums_what_kernel_writes 256 2 3 2 (by decide) (by decide) (by decide)
      (by decide)).1, by decide⟩

/-- The printed flag is read at `ii * nx + jj`, whatever the grid. -/
theorem cell_record_flag {F : Type} (A : Arith F) (params : t_param F)
    (cells : List (List F)) (obstacles : List Int) (ii jj : Int) :
    (cell_record A params cells obstacles ii jj).flag
      = obstacles.getD (ii * params.nx + jj).toNat 0 := by
  unfold cell_record printed_index
  dsimp only
  split_ifs <;> rfl

/-- C27, evaluated: on the 2x2 grid whose only obstacle is the cell
`(ii, jj) = (1, 0)`, the record of that cell takes the occupied branch (zero
velocity) but prints the flag 0, read at index `1*2 + 0 = 2`, the cell
`(0, 1)`, while the cell's own flag `obstacles[1 + 0*2]` is 1, which is
printed in the record of the free cell `(0, 1)`; on a 2x1 grid the flag of
the cell `(1, 0)` is read at index 2, past the two entries of the array. -/
theorem printed_flag_is_of_another_cell :
    (write_values int_arith (grid_params 2 2) east_flow [0, 1, 0, 0] []).1
      = [{ ii := 0, jj := 0, u_x := 1, u_y := 0, u := 1, pressure := 0, flag := 0 },
         { ii := 1, jj := 0, u_x := 0, u_y := 0, u := 0, pressure := 0, flag := 0 },
         { ii := 0, jj := 1, u_x := 1, u_y := 0, u := 1, pressure := 0, flag := 1 },
         { ii := 1, jj := 1, u_x := 1, u_y := 0, u := 1, pressure := 0, flag := 0 }] ∧
    ([0, 1, 0, 0] : List Int).getD (branch_index 2 1 0).toNat 0 = 1 ∧
    printed_index 2 1 0 = 2 ∧ branch_index 2 1 0 = 1 ∧
    ¬ (printed_index 2 1 0 < 2 * 1) := by
  refine ⟨by decide, by decide, by decide, by decide, by decide⟩

end D2q9

namespace Sobol

/-- The target is at most `4 * 24`. -/
theorem targetDimGridX_le (n_vectors n_dimensions : Int) (hv : 0 ≤ n_vectors)
    (hv2 : n_vectors ≤ 2147483647) : targetDimGridX n_vectors n_dimensions ≤ 96 := by
  unfold targetDimGridX to_unsigned to_size_t threadsperblock
  rw [Int.tdiv_eq_ediv hv (by decide)]
  have hq : (n_vectors / 64 % 4294967296).toNat = (n_vectors / 64).toNat := by
    rw [Int.emod_eq_of_lt (by omega) (by omega)]
  rw [hq]
  by_cases hd : n_dimensions < 4 * 24
  · simp only [hd, if_true]
    by_cases hcap : (4 * 24 : Nat) > (n_vectors / 64).toNat
    · rw [if_pos hcap, Int.tdiv_eq_ediv (by omega) (by decide)]
      omega
    · rw [if_neg hcap]
  · simp only [hd, if_false]
    by_cases hcap : (1 : Nat) > (n_vectors / 64).toNat
    · rw [if_pos hcap, Int.tdiv_eq_ediv (by omega) (by decide)]
      omega
    · rw [if_neg hcap]
      decide

/-- From a power of two that no smaller power of two at or above the target
precedes, the loop ends at the least power of two at or above the target. -/
theorem round_loop_pow (target : Nat) :
    ∀ (fuel k0 : Nat), target ≤ 2 ^ (k0 + fuel) → k0 + fuel < 64 →
      (∀ j : Nat, target ≤ 2 ^ j → k0 ≤ j) →
      ∃ k : Nat, round_loop target fuel (2 ^ k0) = some (2 ^ k) ∧ target ≤ 2 ^ k ∧
        ∀ j : Nat, target ≤ 2 ^ j → k ≤ j := by
  intro fuel
  induction fuel with
  | zero =>
    intro k0 ht _ hleast
    refine ⟨k0, ?_, by simpa using ht, hleast⟩
    unfold round_loop
    rw [if_neg (by simpa using ht)]
  | succ fuel ih =>
    intro k0 ht hk hleast
    by_cases hlt : 2 ^ k0 < target
    · have hdouble : 2 ^ k0 * 2 % 18446744073709551616 = 2 ^ (k0 + 1) := by
        rw [← Nat.pow_succ]
        apply Nat.mod_eq_of_lt
        calc 2 ^ (k0 + 1) < 2 ^ 64 := Nat.pow_lt_pow_right (by decide) (by omega)
          _ = 18446744073709551616 := by norm_num
      have hnext := ih (k0 + 1) (by rw [Nat.add_assoc, Nat.add_comm 1 fuel]; exact ht)
        (by omega)
        (by
          intro j hj
          have h1 : 2 ^ k0 < 2 ^ j := lt_of_lt_of_le hlt hj
          have h2 : k0 < j := (Nat.pow_lt_pow_iff_right (by decide)).mp h1
          omega)
      obtain ⟨k, hrun, hk1, hk2⟩ := hnext
      refine ⟨k, ?_, hk1, hk2⟩
      unfold round_loop
      rw [if_pos hlt]
      simp only
      rw [hdouble]
      exact hrun
    · refine ⟨k0, ?_, by omega, hleast⟩
      unfold round_loop
      rw [if_neg hlt]

/-- A loop that has ended within `fuel` doublings ends the same way when it
is allowed more. -/
theorem round_loop_mono (target : Nat) :
    ∀ (fuel d r : Nat), round_loop target fuel d = some r →
      ∀ extra : Nat, round_loop target (fuel + extra) d = some r := by
  intro fuel
  induction fuel with
  | zero =>
    intro d r hrun extra
    unfold round_loop at hrun
    by_cases hlt : d < target
    · simp [hlt] at hrun
    · rw [if_neg hlt] at hrun
      unfold round_loop
      rw [if_neg hlt]
      exact hrun
  | succ fuel ih =>
    intro d r hrun extra
    unfold round_loop at hrun
    by_cases hlt : d < target
    · rw [if_pos hlt] at hrun
      simp only at hrun
      have hnext := ih _ r hrun extra
      have hsucc : fuel + 1 + extra = (fuel + extra) + 1 := by omega
      rw [hsucc]
      unfold round_loop
      rw [if_pos hlt]
      exact hnext
    · rw [if_neg hlt] at hrun
      unfold round_loop
      rw [if_neg hlt]
      exact hrun

/-- C24: for `n_vectors ≥ 0` and `n_dimensions ≥ 1` the execution
configuration is reached (seven doublings are enough) and `dimGrid[2]` is a
power of two `2^k`, the least one at or above the capped target, which is 1
when the target is 0; the stride `dimGrid[2] * 64` is the power of two
`2^(k+6)`. -/
theorem grid_is_power_of_two (fuel : Nat) (n_vectors n_dimensions : Int)
    (hv : 0 ≤ n_vectors) (hv2 : n_vectors ≤ 2147483647) (_hd : 1 ≤ n_dimensions)
    (hfuel : 7 ≤ fuel) :
    ∃ k : Nat,
      sobolGPU_grid fuel n_vectors n_dimensions
        = some (1, to_size_t n_dimensions, 2 ^ k) ∧
      targetDimGridX n_vectors n_dimensions ≤ 2 ^ k ∧
      (∀ j : Nat, targetDimGridX n_vectors n_dimensions ≤ 2 ^ j → k ≤ j) ∧
      (targetDimGridX n_vectors n_dimensions = 0 → 2 ^ k = 1) ∧
      stride (2 ^ k) = 2 ^ (k + 6) := by
  have hle := targetDimGridX_le n_vectors n_dimensions hv hv2
  obtain ⟨k, hrun, hk1, hk2⟩ :=
    round_loop_pow (targetDimGridX n_vectors n_dimensions) 7 0
      (le_trans hle (by norm_num)) (by decide) (fun j _ => Nat.zero_le j)
  have hrun' : round_loop (targetDimGridX n_vectors n_dimensions) fuel 1 = some (2 ^ k) := by
    have h := round_loop_mono _ 7 (2 ^ 0) (2 ^ k) hrun (fuel - 7)
    have hf : 7 + (fuel - 7) = fuel := by omega
    rw [hf] at h
    simpa using h
  refine ⟨k, ?_, hk1, hk2, ?_, ?_⟩
  · unfold sobolGPU_grid
    rw [hrun']
    rfl
  · intro h0
    have hk0 : k ≤ 0 := hk2 0 (by rw [h0]; norm_num)
    have : k = 0 := by omega
    rw [this]
    rfl
  · unfold stride threadsperblock
    push_cast
    rw [pow_add]
    norm_num

/-- Witness of C24: 1000 vectors in 3 dimensions: the target 16 is kept. -/
theorem grid_is_power_of_two_witness :
    ∃ k : Nat,
      sobolGPU_grid 7 1000 3 = some (1, to_size_t 3, 2 ^ k) ∧
      targetDimGridX 1000 3 ≤ 2 ^ k ∧
      (∀ j : Nat, targetDimGridX 1000 3 ≤ 2 ^ j → k ≤ j) ∧
      (targetDimGridX 1000 3 = 0 → 2 ^ k = 1) ∧
      stride (2 ^ k) = 2 ^ (k + 6) :=
  grid_is_power_of_two 7 1000 3 (by decide) (by decide) (by decide) (by decide)

end Sobol

namespace Bezier

/-- The work-item whose index is `RESOLUTIONI` passes the guard, and every
index it writes is at or past the end of the output array. -/
theorem item_at_resolution_writes (RESOLUTIONI RESOLUTIONJ : Int)
    (local_range group local_id : Nat)
    (hi : (local_range : Int) * (group : Int) + (local_id : Int) = RESOLUTIONI) :
    BezierGPU_writes RESOLUTIONI RESOLUTIONJ local_range group local_id
      = (List.range RESOLUTIONJ.toNat).map
          (fun (j : Nat) => RESOLUTIONI * RESOLUTIONJ + (j : Int)) ∧
    ∀ ix ∈ BezierGPU_writes RESOLUTIONI RESOLUTIONJ local_range group local_id,
      RESOLUTIONI * RESOLUTIONJ ≤ ix := by
  have hw : BezierGPU_writes RESOLUTIONI RESOLUTIONJ local_range group local_id
      = (List.range RESOLUTIONJ.toNat).map
          (fun (j : Nat) => RESOLUTIONI * RESOLUTIONJ + (j : Int)) := by
    unfold BezierGPU_writes
    simp only [hi]
    rw [if_neg (by omega)]
  refine ⟨hw, ?_⟩
  intro ix hix
  rw [hw, List.mem_map] at hix
  obtain ⟨j, _, rfl⟩ := hix
  omega

/-- C25, evaluated: with the default sizes (output 300 x 300, work-groups of
256) the launch has two groups, so the work-item with local id 44 of group 1,
whose index is 300, is part of it; the guard `i > RESOLUTIONI` lets it
through, and it writes the 300 indices `90000 .. 90299`, all of them at or
past the end of the array of `300 * 300` points. -/
theorem guard_admits_item_past_the_end :
    launch_groups 300 256 = 2 ∧
    BezierGPU_writes 300 300 256 1 44
      = (List.range 300).map (fun (j : Nat) => (90000 : Int) + (j : Int)) ∧
    (90000 : Int) ∈ BezierGPU_writes 300 300 256 1 44 ∧
    ∀ ix ∈ BezierGPU_writes 300 300 256 1 44, (300 : Int) * 300 ≤ ix := by
  have h := item_at_resolution_writes 300 300 256 1 44 (by decide)
  refine ⟨by decide, ?_, ?_, h.2⟩
  · rw [h.1]
    rfl
  · rw [h.1, List.mem_map]
    exact ⟨0, by simp, by norm_num⟩

/-- With at most one more division pending than passes left, for each of the
two divisors, the loop multiplies by `nn!` and divides by `kn! * nkn!`. -/
theorem blend_loop_rat :
    ∀ (nn a b : Nat) (blend : ℚ), a ≤ nn + 1 → b ≤ nn + 1 →
      blend_loop rat_arith nn (a : Int) (b : Int) blend
        = blend * (nn.factorial : ℚ) / ((a.factorial : ℚ) * (b.factorial : ℚ)) := by
  intro nn
  induction nn with
  | zero =>
    intro a b blend ha hb
    have ha1 : a.factorial = 1 := by
      rcases Nat.le_one_iff_eq_zero_or_eq_one.mp ha with h | h <;> rw [h] <;> rfl
    have hb1 : b.factorial = 1 := by
      rcases Nat.le_one_iff_eq_zero_or_eq_one.mp hb with h | h <;> rw [h] <;> rfl
    simp [blend_loop, ha1, hb1]
  | succ nn ih =>
    intro a b blend ha hb
    have hstep : ∀ (c : Nat) (x : ℚ), c ≤ nn + 2 →
        ∃ c' : Nat, (if (c : Int) > 1 then (c : Int) - 1 else (c : Int)) = (c' : Int) ∧
          c' ≤ nn + 1 ∧
          (if (c : Int) > 1 then rat_arith.div x (rat_arith.ofInt (c : Int)) else x)
            = x * (c'.factorial : ℚ) / (c.factorial : ℚ) := by
      intro c x hc
      by_cases h1 : (c : Int) > 1
      · obtain ⟨c', rfl⟩ : ∃ c' : Nat, c = c' + 1 := ⟨c - 1, by omega⟩
        refine ⟨c', by rw [if_pos h1]; push_cast; ring, by omega, ?_⟩
        rw [if_pos h1]
        have hc0 : ((c' + 1 : Nat) : ℚ) ≠ 0 := by positivity
        have hf0 : (c'.factorial : ℚ) ≠ 0 := by positivity
        simp only [rat_arith, Nat.factorial_succ]
        push_cast
        field_simp
        ring
      · refine ⟨c, by rw [if_neg h1], by omega, ?_⟩
        rw [if_neg h1]
        have hf0 : (c.factorial : ℚ) ≠ 0 := by positivity
        field_simp
    obtain ⟨a', ha1, ha2, ha3⟩ := hstep a (rat_arith.mul blend
      (rat_arith.ofInt ((nn : Int) + 1))) (by omega)
    obtain ⟨b', hb1, hb2, hb3⟩ := hstep b
      (rat_arith.mul blend (rat_arith.ofInt ((nn : Int) + 1)) * (a'.factorial : ℚ)
        / (a.factorial : ℚ)) (by omega)
    simp only [blend_loop]
    rw [ha1, hb1, ha3, hb3, ih a' b' _ ha2 hb2]
    have hfa : (a.factorial : ℚ) ≠ 0 := by positivity
    have hfb : (b.factorial : ℚ) ≠ 0 := by positivity
    have hfa' : (a'.factorial : ℚ) ≠ 0 := by positivity
    have hfb' : (b'.factorial : ℚ) ≠ 0 := by positivity
    simp only [rat_arith, Nat.factorial_succ]
    push_cast
    field_simp
    ring

/-- C26: over the rationals, for `0 ≤ k ≤ n` and every `mu`, the loop of
`BezierBlend` leaves `blend = n! / (k! * (n-k)!)`, the binomial coefficient,
and `BezierBlend(k, mu, n)` is the Bernstein value
`C(n,k) * mu^k * (1 - mu)^(n-k)`. -/
theorem BezierBlend_bernstein (k n : Nat) (hk : k ≤ n) (mu : ℚ) :
    blend_loop rat_arith n (k : Int) ((n : Int) - (k : Int)) (rat_arith.ofInt 1)
      = (n.factorial : ℚ) / ((k.factorial : ℚ) * ((n - k).factorial : ℚ)) ∧
    blend_loop rat_arith n (k : Int) ((n : Int) - (k : Int)) (rat_arith.ofInt 1)
      = (n.choose k : ℚ) ∧
    BezierBlend rat_arith (k : Int) mu (n : Int)
      = (n.choose k : ℚ) * mu ^ k * (1 - mu) ^ (n - k) := by
  have hsub : (n : Int) - (k : Int) = ((n - k : Nat) : Int) := by omega
  have hloop : blend_loop rat_arith n (k : Int) ((n : Int) - (k : Int)) (rat_arith.ofInt 1)
      = (n.factorial : ℚ) / ((k.factorial : ℚ) * ((n - k).factorial : ℚ)) := by
    rw [hsub, blend_loop_rat n k (n - k) _ (by omega) (by omega)]
    simp [rat_arith]
  have hchoose : (n.choose k : ℚ)
      = (n.factorial : ℚ) / ((k.factorial : ℚ) * ((n - k).factorial : ℚ)) :=
    Nat.cast_choose ℚ hk
  refine ⟨hloop, by rw [hloop, hchoose], ?_⟩
  unfold BezierBlend
  simp only [Int.toNat_natCast]
  rw [hloop, ← hchoose]
  have hpowk : rat_arith.pow mu (rat_arith.ofInt (k : Int)) = mu ^ k := by
    simp [rat_arith]
  have hpownk : rat_arith.pow (rat_arith.sub (rat_arith.ofInt 1) mu)
      (rat_arith.ofInt ((n : Int) - (k : Int))) = (1 - mu) ^ (n - k) := by
    rw [hsub]
    simp [rat_arith]
  rw [hpowk, hpownk]
  by_cases hk0 : (k : Int) > 0
  · by_cases hnk0 : (n : Int) - (k : Int) > 0
    · rw [if_pos hk0, if_pos hnk0]
      rfl
    · have hz : n - k = 0 := by omega
      rw [if_pos hk0, if_neg hnk0, hz, pow_zero, mul_one]
      rfl
  · have hz : k = 0 := by omega
    by_cases hnk0 : (n : Int) - (k : Int) > 0
    · rw [if_neg hk0, if_pos hnk0]
      subst hz
      simp [rat_arith]
    · have hz2 : n - k = 0 := by omega
      rw [if_neg hk0, if_neg hnk0]
      subst hz
      simp [hz2]

/-- Witness of C26: `BezierBlend(1, 1/3, 3) = 3 * (1/3) * (2/3)^2`. -/
theorem BezierBlend_bernstein_witness :
    BezierBlend rat_arith ((1 : Nat) : Int) (1 / 3) ((3 : Nat) : Int)
      = ((3 : Nat).choose 1 : ℚ) * (1 / 3) ^ 1 * (1 - 1 / 3) ^ (3 - 1) :=
  (BezierBlend_bernstein 1 3 (by decide) (1 / 3)).2.2

end Bezier
